import Mathlib

/-!
Shallow embedding of the ledger engine of the bookkeeper repository
(`src/backend/services.py`, class `BookkeepingService`, together with the data
model of `src/backend/models.py`), and proofs about it.

Modelling conventions:
* SQLAlchemy rows become Lean structures; the database session becomes an
  explicit `State` record holding the five relations as lists (in insertion
  order, as produced by `session.add`).
* `Decimal` amounts become `Rat`: every finite decimal is an exact rational,
  and `Decimal` addition/subtraction/comparison agree with the rational ones.
  Storage is modelled as exact (ORM-to-storage mechanics are outside the
  engine).
* Python `str` ids become `Nat` ids; the pydantic `account_id` field of a
  journal-entry payload, a `str` whose empty value is falsy, and nullable id
  columns become `Option Nat` (`none` for `None`/`""`).
* `raise ValueError(msg)` becomes an `Except.error msg` result together with
  the rolled-back (unchanged) state, mirroring `self.db.rollback()`;
  a committed mutation returns the new state.
* `uuid4` primary keys become ids drawn from a monotone counter `nextId`.
* Account codes and transaction references are the strings the source builds
  with f-strings; the store's `order_by(... .desc()).first()` on a string
  column is the lexicographic (binary-collation) maximum, modelled by
  `lexMaxStr` below, and `LIKE 'p%'` is a leading-characters test.
-/

set_option allowUnsafeReducibility true in
attribute [semireducible] Rat.add Rat.sub Rat.mul Rat.inv Rat.neg Rat.normalize Rat.ofScientific Rat.div

deriving instance DecidableEq for Except

/-- Account types, from `models.AccountType`. -/
inductive AccountType where
  | asset
  | liability
  | equity
  | income
  | expense
deriving DecidableEq, Repr

/-- Transaction statuses, from `models.TransactionStatus`. -/
inductive TransactionStatus where
  | pending
  | completed
  | void
deriving DecidableEq, Repr

/-- Staged-transaction statuses, from `models.ImportStatus`. -/
inductive ImportStatus where
  | pending
  | processed
  | error
deriving DecidableEq, Repr

/-- Calendar dates (`datetime.date`); comparisons are lexicographic on
(year, month, day), which is the calendar order on valid dates. -/
structure Date where
  year : Nat
  month : Nat
  day : Nat
deriving DecidableEq, Repr

/-- Date comparison `a <= b` as a Bool, mirroring SQL date comparison. -/
def Date.leb (a b : Date) : Bool :=
  Nat.blt a.year b.year ||
    (Nat.beq a.year b.year &&
      (Nat.blt a.month b.month ||
        (Nat.beq a.month b.month && Nat.ble a.day b.day)))

/-! ### Characters, digit strings and lexicographic order

These model the string manipulations of `_generate_account_code` and
`_generate_transaction_reference`: Python f-string zero-padded decimal
formatting, `str.split('-')`, `int(...)` on digit strings, `LIKE 'p%'`
filtering and `ORDER BY ... DESC` (binary-collation lexicographic order). -/

/-- The decimal digit character for `d < 10` (what `%d` formatting emits). -/
def digitChar (d : Nat) : Char :=
  match d with
  | 0 => '0' | 1 => '1' | 2 => '2' | 3 => '3' | 4 => '4'
  | 5 => '5' | 6 => '6' | 7 => '7' | 8 => '8' | 9 => '9'
  | _ => '*'

/-- Decimal digits of `n`, most significant first, with explicit fuel so the
definition is structural (the fuel `n + 1` always suffices). -/
def natDigitsAux : Nat → Nat → List Char
  | 0, _ => []
  | fuel + 1, n =>
    if n < 10 then [digitChar n]
    else natDigitsAux fuel (n / 10) ++ [digitChar (n % 10)]

/-- Decimal digit characters of `n` (Python `str(n)` for a nonnegative int). -/
def natDigits (n : Nat) : List Char := natDigitsAux (n + 1) n

/-- Python `f"{n:03d}"`: decimal digits of `n` zero-padded to width at least 3. -/
def pad3 (n : Nat) : List Char :=
  if n < 10 then ['0', '0', digitChar n]
  else if n < 100 then ['0', digitChar (n / 10), digitChar (n % 10)]
  else if n < 1000 then [digitChar (n / 100), digitChar (n / 10 % 10), digitChar (n % 10)]
  else natDigits n

/-- Python `f"{n:04d}"` (strftime `%Y`): digits zero-padded to width 4. -/
def pad4 (n : Nat) : List Char :=
  if n < 10 then ['0', '0', '0', digitChar n]
  else if n < 100 then ['0', '0', digitChar (n / 10), digitChar (n % 10)]
  else if n < 1000 then
    ['0', digitChar (n / 100), digitChar (n / 10 % 10), digitChar (n % 10)]
  else natDigits n

/-- Python `f"{n:02d}"` (strftime `%m`, `%d`): digits zero-padded to width 2. -/
def pad2 (n : Nat) : List Char :=
  if n < 10 then ['0', digitChar n] else natDigits n

/-- Strict lexicographic order on character lists, by code point: the order a
binary-collated SQL `ORDER BY` uses on these ASCII strings. -/
def lexLtCh : List Char → List Char → Bool
  | [], [] => false
  | [], _ :: _ => true
  | _ :: _, [] => false
  | a :: as, b :: bs =>
    if a.toNat < b.toNat then true
    else if b.toNat < a.toNat then false
    else lexLtCh as bs

/-- Strict lexicographic order on strings (binary collation). -/
def strLtB (a b : String) : Bool := lexLtCh a.data b.data

/-- The value returned by `ORDER BY col DESC ... .first()` over a list of
strings: its lexicographic maximum (`none` on the empty list). -/
def lexMaxStr : List String → Option String
  | [] => none
  | s :: rest =>
    match lexMaxStr rest with
    | none => some s
    | some m => if strLtB s m then some m else some s

/-- Does `s` start with the characters `p` (SQL `LIKE 'p%'`)? -/
def leadsWith : List Char → List Char → Bool
  | [], _ => true
  | _ :: _, [] => false
  | p :: ps, c :: cs => p == c && leadsWith ps cs

/-- Python `str.split(sep)` on character lists (no collapsing of empty parts). -/
def splitChars (sep : Char) : List Char → List (List Char)
  | [] => [[]]
  | c :: cs =>
    let r := splitChars sep cs
    if c == sep then [] :: r
    else
      match r with
      | [] => [[c]]
      | h :: t => (c :: h) :: t

/-- The numeric value of a decimal digit character, if it is one. -/
def digitVal (c : Char) : Option Nat :=
  if 48 ≤ c.toNat && c.toNat ≤ 57 then some (c.toNat - 48) else none

/-- Accumulator loop for parsing a digit string. -/
def digitsToNatAux : List Char → Nat → Option Nat
  | [], acc => some acc
  | c :: cs, acc =>
    match digitVal c with
    | none => none
    | some d => digitsToNatAux cs (acc * 10 + d)

/-- Python `int(s)` on the digit strings the engine generates: `none` (a
`ValueError`) when `s` is empty or contains a non-digit. -/
def parseIntChars (cs : List Char) : Option Nat :=
  match cs with
  | [] => none
  | _ :: _ => digitsToNatAux cs 0

/-! ### Data model (`src/backend/models.py`) -/

/-- An `account_categories` row. -/
structure Category where
  id : Nat
  name : String
  description : Option String
deriving DecidableEq, Repr

/-- An `accounts` row. -/
structure Account where
  id : Nat
  category_id : Option Nat
  name : String
  type : AccountType
  code : String
  description : Option String
  is_active : Bool
deriving DecidableEq, Repr

/-- A `transactions` row. -/
structure TransactionRow where
  id : Nat
  transaction_date : Date
  description : String
  status : TransactionStatus
  reference_number : Option String
deriving DecidableEq, Repr

/-- A `journal_entries` row. -/
structure JournalEntryRow where
  id : Nat
  transaction_id : Nat
  account_id : Nat
  debit_amount : Rat
  credit_amount : Rat
deriving DecidableEq, Repr

/-- A `staged_transactions` row. -/
structure StagedRow where
  id : Nat
  source_id : Nat
  transaction_date : Date
  description : String
  amount : Rat
  status : ImportStatus
  account_id : Option Nat
  error_message : Option String
  processed_at : Option Date
deriving DecidableEq, Repr

/-- Payload `models.AccountCreate`. -/
structure AccountCreate where
  category_id : Option Nat
  name : String
  type : AccountType
  description : Option String
  is_active : Bool
deriving DecidableEq, Repr

/-- Payload `models.JournalEntryCreate` (`account_id` is a `str`; its empty,
falsy value is modelled as `none`). -/
structure JournalEntryCreate where
  account_id : Option Nat
  debit_amount : Rat
  credit_amount : Rat
deriving DecidableEq, Repr

/-- Payload `models.TransactionCreate`. -/
structure TransactionCreate where
  transaction_date : Date
  description : String
  reference_number : Option String
  status : TransactionStatus
  entries : List JournalEntryCreate
deriving DecidableEq, Repr

/-- The persistent state of the service: the relational store, plus the id
supply standing in for `uuid4`. -/
structure State where
  categories : List Category
  accounts : List Account
  transactions : List TransactionRow
  entries : List JournalEntryRow
  staged : List StagedRow
  nextId : Nat
deriving DecidableEq, Repr

/-! ### Account registry (`services.py` lines 155–287) -/

/-- The type-to-code-letter table of `_generate_account_code`. -/
def pfxChar : AccountType → Char
  | .asset => 'A'
  | .liability => 'L'
  | .equity => 'E'
  | .income => 'R'
  | .expense => 'X'

/-- The characters of the code `f"{prefix}-{n:03d}"`. -/
def accountCodeChars (t : AccountType) (n : Nat) : List Char :=
  pfxChar t :: '-' :: pad3 n

/-- The account code `f"{prefix}-{n:03d}"`. -/
def accountCode (t : AccountType) (n : Nat) : String :=
  ⟨accountCodeChars t n⟩

/-- The max-plus-one step of `_generate_account_code`: parse the piece after
the first dash of the lexicographically largest code as an integer and add
one, falling back to 1 when indexing or parsing fails. -/
def nextCodeNumber (top : List Char) : Nat :=
  match (splitChars '-' top)[1]? with
  | none => 1
  | some piece =>
    match parseIntChars piece with
    | none => 1
    | some k => k + 1

/-- `BookkeepingService._generate_account_code`, continued. -/
def generateAccountCode (accounts : List Account) (t : AccountType) : String :=
  let p := pfxChar t
  match lexMaxStr ((accounts.filter (fun a => leadsWith [p, '-'] a.code.data)).map (·.code)) with
  | none => ⟨p :: '-' :: pad3 1⟩
  | some top => ⟨p :: '-' :: pad3 (nextCodeNumber top.data)⟩

/-- The category-existence check shared by `create_account` and
`update_account` (`None` passes; a given id must exist). -/
def categoryOkB (s : State) (c : Option Nat) : Bool :=
  match c with
  | none => true
  | some cid => s.categories.any (fun x => x.id == cid)

/-- The insertion performed by `create_account` once validation has passed:
generate the code, build the row, commit. The `accounts.code` column is
declared `unique=True` in models.py and the constraint is created with the
table, so committing a row whose generated code equals a stored account's
code raises `IntegrityError` and persists nothing; the model returns the
untouched state and the error in that case. -/
def createAccountCore (s : State) (d : AccountCreate) : State × Except String Account :=
  if s.accounts.any (fun a => a.code == generateAccountCode s.accounts d.type) then
    (s, .error "IntegrityError: UNIQUE constraint failed: accounts.code")
  else
    ({ s with
        accounts := s.accounts ++ [⟨s.nextId, d.category_id, d.name, d.type,
          generateAccountCode s.accounts d.type, d.description, d.is_active⟩],
        nextId := s.nextId + 1 },
      .ok ⟨s.nextId, d.category_id, d.name, d.type,
        generateAccountCode s.accounts d.type, d.description, d.is_active⟩)

/-- `BookkeepingService.create_account`: check the category when one is given,
generate the code, insert the account. -/
def createAccount (s : State) (d : AccountCreate) : State × Except String Account :=
  if categoryOkB s d.category_id then createAccountCore s d
  else
    (s, .error ("Account category with id " ++
      (match d.category_id with | some cid => Nat.repr cid | none => "") ++ " not found"))

/-- The per-row field replacement of `update_account`: every payload field
except `type` (explicitly excluded) is written; `code` is not a payload field
and is left as stored. -/
def applyAccountFields (a : Account) (d : AccountCreate) : Account :=
  { a with category_id := d.category_id, name := d.name,
           description := d.description, is_active := d.is_active }

/-- `BookkeepingService.update_account`: `None` when the account is missing,
an error when the new category is missing or the type differs from the stored
one, otherwise replace the non-`type` payload fields wholesale. -/
def updateAccount (s : State) (aid : Nat) (d : AccountCreate) :
    State × Except String (Option Account) :=
  match s.accounts.find? (fun a => a.id == aid) with
  | none => (s, .ok none)
  | some acct =>
    if categoryOkB s d.category_id then
      if d.type = acct.type then
        ({ s with accounts :=
              s.accounts.map (fun a => if a.id == aid then applyAccountFields a d else a) },
         .ok (some (applyAccountFields acct d)))
      else
        (s, .error "Cannot change account type as it would invalidate the account code")
    else
      (s, .error ("Account category with id " ++
        (match d.category_id with | some cid => Nat.repr cid | none => "") ++ " not found"))

/-! ### Balance calculator (`services.py` lines 289–346) -/

/-- The rows the `get_account_balance` query ranges over: all journal entries
when `as_of` is absent, and otherwise the inner join of entries with
transactions restricted to `transaction_date <= as_of` (one copy of the entry
per matching transaction, as a SQL join produces). -/
def entryRowsAsOf (s : State) (asOf : Option Date) : List JournalEntryRow :=
  match asOf with
  | none => s.entries
  | some d =>
    s.entries.flatMap (fun e =>
      (s.transactions.filter
        (fun t => t.id == e.transaction_id && Date.leb t.transaction_date d)).map
        (fun _ => e))

/-- `BookkeepingService.get_account_balance`: sum of debits minus sum of
credits over the account's (optionally date-restricted) entries, empty sums
counting as zero. -/
def getAccountBalance (s : State) (aid : Nat) (asOf : Option Date) : Rat :=
  let rows := (entryRowsAsOf s asOf).filter (fun e => e.account_id == aid)
  ((rows.map (·.debit_amount)).sum) - ((rows.map (·.credit_amount)).sum)

/-! ### Transaction poster (`services.py` lines 349–558) -/

/-- The characters `f"TXN-{date_str}-"` of `_generate_transaction_reference`,
where `date_str` is `datetime.now().strftime('%Y%m%d')`. -/
def txnPfxChars (today : Date) : List Char :=
  'T' :: 'X' :: 'N' :: '-' ::
    (pad4 today.year ++ pad2 today.month ++ pad2 today.day) ++ ['-']

/-- The stored reference numbers matching today's `LIKE 'TXN-YYYYMMDD-%'`
filter in `_generate_transaction_reference` (the current date — the day the
call is made — keys the per-day sequence, not the transaction's own date). -/
def todayRefs (today : Date) (ts : List TransactionRow) : List String :=
  ts.filterMap (fun t =>
    match t.reference_number with
    | some r => if leadsWith (txnPfxChars today) r.data then some r else none
    | none => none)

/-- The max-plus-one step of `_generate_transaction_reference`: parse the
piece after the second dash (the `NNN`) of the largest reference with today's
lead and add one, falling back to 1 on indexing or parse failure. -/
def nextRefNumber (top : List Char) : Nat :=
  match (splitChars '-' top)[2]? with
  | none => 1
  | some piece =>
    match parseIntChars piece with
    | none => 1
    | some k => k + 1

/-- `BookkeepingService._generate_transaction_reference`, concluded: the next
per-day sequence number is appended to today's lead, zero-padded to 3. -/
def generateTransactionReference (today : Date) (ts : List TransactionRow) : String :=
  match lexMaxStr (todayRefs today ts) with
  | none => ⟨txnPfxChars today ++ pad3 1⟩
  | some top => ⟨txnPfxChars today ++ pad3 (nextRefNumber top.data)⟩

/-- A validated entry of `create_transaction` (an element of `valid_entries`). -/
structure ValidEntry where
  account_id : Nat
  debit_amount : Rat
  credit_amount : Rat
deriving DecidableEq, Repr

/-- The entry-validation loop of `create_transaction` (its step 3): skip
entries with no account or with both amounts zero; fail on a missing account,
a duplicated account, a negative amount, or an entry both debited and
credited; collect the surviving entries and their running totals. -/
def validateEntries (accounts : List Account) :
    List JournalEntryCreate → List Nat → Except String (List ValidEntry × Rat × Rat)
  | [], _ => .ok ([], 0, 0)
  | e :: rest, used =>
    match e.account_id with
    | none => validateEntries accounts rest used
    | some aid =>
      if e.debit_amount = 0 ∧ e.credit_amount = 0 then
        validateEntries accounts rest used
      else
        match accounts.find? (fun a => a.id == aid) with
        | none => .error ("Account " ++ Nat.repr aid ++ " not found")
        | some a =>
          if aid ∈ used then
            .error ("Account " ++ a.name ++ " is used multiple times")
          else if e.debit_amount < 0 ∨ e.credit_amount < 0 then
            .error "Negative amounts are not allowed"
          else if 0 < e.debit_amount ∧ 0 < e.credit_amount then
            .error ("Account " ++ a.name ++ " cannot be both debited and credited")
          else
            match validateEntries accounts rest (aid :: used) with
            | .error m => .error m
            | .ok (ve, totD, totC) =>
              .ok (⟨aid, e.debit_amount, e.credit_amount⟩ :: ve,
                   e.debit_amount + totD, e.credit_amount + totC)

/-- The journal-entry rows inserted for a transaction: ids from the supply in
order, all pointing at the transaction. -/
def mkRows (base tid : Nat) : List ValidEntry → List JournalEntryRow
  | [] => []
  | v :: vs => ⟨base, tid, v.account_id, v.debit_amount, v.credit_amount⟩ :: mkRows (base + 1) tid vs

/-- The insertion performed by `create_transaction` once all checks passed:
a header with a generated reference and default `completed` status, then one
journal-entry row per validated entry. -/
def insertTxn (today : Date) (s : State) (td : TransactionCreate) (ve : List ValidEntry) :
    State × TransactionRow :=
  let tr : TransactionRow :=
    ⟨s.nextId, td.transaction_date, td.description, .completed,
      some (generateTransactionReference today s.transactions)⟩
  let rows := mkRows (s.nextId + 1) s.nextId ve
  ({ s with transactions := s.transactions ++ [tr],
            entries := s.entries ++ rows,
            nextId := s.nextId + 1 + ve.length }, tr)

/-- The validation-then-insertion pipeline of `create_transaction` run inside
its nested transaction; an `Except.error` is a raised `ValueError` with the
whole unit rolled back. The `transaction_date` truthiness check of the source
cannot fail here because a `date` object is always truthy. -/
def createTransactionChecked (today : Date) (s : State) (td : TransactionCreate) :
    Except String (State × TransactionRow) :=
  if td.entries = [] then .error "No journal entries provided"
  else if td.description = "" then .error "Transaction description is required"
  else
    match validateEntries s.accounts td.entries [] with
    | .error m => .error m
    | .ok (ve, totD, totC) =>
      if ve.length < 2 then .error "At least two valid journal entries are required"
      else if (1 : Rat) / 100 ≤ |totD - totC| then
        .error "Total debits must equal total credits"
      else .ok (insertTxn today s td ve)

/-- `BookkeepingService.create_transaction`: all-or-nothing — on any error the
state is the rolled-back original. -/
def createTransaction (today : Date) (s : State) (td : TransactionCreate) :
    State × Except String TransactionRow :=
  match createTransactionChecked today s td with
  | .ok (s', t) => (s', .ok t)
  | .error m => (s, .error m)

/-- Total of the `debit_amount` column over a list of stored entries. -/
def sumDebit (l : List JournalEntryRow) : Rat := (l.map (·.debit_amount)).sum

/-- Total of the `credit_amount` column over a list of stored entries. -/
def sumCredit (l : List JournalEntryRow) : Rat := (l.map (·.credit_amount)).sum

/-- Total of the `debit_amount` field over a list of payload entries. -/
def sumDebitC (l : List JournalEntryCreate) : Rat := (l.map (·.debit_amount)).sum

/-- Total of the `credit_amount` field over a list of payload entries. -/
def sumCreditC (l : List JournalEntryCreate) : Rat := (l.map (·.credit_amount)).sum

/-- The scalar-field replacement of `update_transaction`: every payload field
except `entries` is written onto the stored header (including
`reference_number` and `status`). -/
def applyTxnFields (t : TransactionRow) (td : TransactionCreate) : TransactionRow :=
  { t with transaction_date := td.transaction_date, description := td.description,
           reference_number := td.reference_number, status := td.status }

/-- The per-entry account check of `update_transaction`: unlike posting it
skips nothing and validates nothing else; it resolves each entry's account in
order (a falsy or unknown id raises) and keeps the entry as given. -/
def checkUpdateEntries (accounts : List Account) :
    List JournalEntryCreate → Except String (List ValidEntry)
  | [] => .ok []
  | e :: rest =>
    match e.account_id.bind (fun aid => accounts.find? (fun a => a.id == aid)) with
    | none =>
      .error ("Account with id " ++
        (match e.account_id with | some aid => Nat.repr aid | none => "") ++ " not found")
    | some a =>
      match checkUpdateEntries accounts rest with
      | .error m => .error m
      | .ok ve => .ok (⟨a.id, e.debit_amount, e.credit_amount⟩ :: ve)

/-- `BookkeepingService.update_transaction`: `None` when the transaction is
missing; otherwise replace the scalar fields, delete all existing entries of
the transaction, insert the payload entries after resolving their accounts,
and commit only when the raw totals are exactly equal — every raised error
rolls the whole replacement back. -/
def updateTransaction (s : State) (tid : Nat) (td : TransactionCreate) :
    State × Except String (Option TransactionRow) :=
  match s.transactions.find? (fun t => t.id == tid) with
  | none => (s, .ok none)
  | some tr =>
    match checkUpdateEntries s.accounts td.entries with
    | .error m => (s, .error m)
    | .ok ve =>
      if sumDebitC td.entries = sumCreditC td.entries then
        ({ s with
            transactions :=
              s.transactions.map (fun t => if t.id == tid then applyTxnFields t td else t),
            entries :=
              (s.entries.filter (fun e => !(e.transaction_id == tid))) ++ mkRows s.nextId tid ve,
            nextId := s.nextId + ve.length },
         .ok (some (applyTxnFields tr td)))
      else
        (s, .error "Total debits must equal total credits")

/-! ### Journal entries (`services.py` lines 711–738) -/

/-- The other entries of the deleted entry's parent transaction
(`e.id != entry_id` over `transaction.journal_entries`). -/
def siblingEntries (s : State) (e : JournalEntryRow) (eid : Nat) : List JournalEntryRow :=
  s.entries.filter (fun x => x.transaction_id == e.transaction_id && !(x.id == eid))

/-- `BookkeepingService.delete_journal_entry`: `false` when the entry id is
unknown; otherwise sum the debits and credits of the parent transaction's
other entries and refuse (raising, changing nothing) when those remaining
totals differ; only a still-balanced transaction lets the row be deleted. -/
def deleteJournalEntry (s : State) (eid : Nat) : State × Except String Bool :=
  match s.entries.find? (fun e => e.id == eid) with
  | none => (s, .ok false)
  | some e =>
    if sumDebit (siblingEntries s e eid) = sumCredit (siblingEntries s e eid) then
      ({ s with entries := s.entries.eraseP (fun x => x.id == eid) }, .ok true)
    else
      (s, .error "Cannot delete journal entry as it would unbalance the transaction")

/-! ### Report generator (`services.py` lines 741–816) -/

/-- A balance-sheet line (`{'name': ..., 'balance': ...}`). -/
structure BalanceLine where
  name : String
  balance : Rat
deriving DecidableEq, Repr

/-- The `models.BalanceSheet` report. -/
structure BalanceSheet where
  assets : List BalanceLine
  liabilities : List BalanceLine
  equity : List BalanceLine
  total_assets : Rat
  total_liabilities : Rat
  total_equity : Rat
  net_income : Rat
  total_liabilities_and_equity : Rat
deriving DecidableEq, Repr

/-- `BookkeepingService.get_balance_sheet`: assets accumulate signed balances;
liability and equity totals accumulate sign-flipped balances; net income
(income activity minus expense activity as of the date) is appended to the
equity section and folded into its total when nonzero; the grand total is
liabilities plus (folded) equity. -/
def getBalanceSheet (s : State) (asOf : Option Date) : BalanceSheet :=
  let bal := fun (a : Account) => getAccountBalance s a.id asOf
  let assets := s.accounts.filter (fun a => decide (a.type = .asset))
  let liabilities := s.accounts.filter (fun a => decide (a.type = .liability))
  let equity := s.accounts.filter (fun a => decide (a.type = .equity))
  let incomeAccts := s.accounts.filter (fun a => decide (a.type = .income))
  let expenseAccts := s.accounts.filter (fun a => decide (a.type = .expense))
  let totalAssets := (assets.map bal).sum
  let totalLiabilities := (liabilities.map (fun a => -(bal a))).sum
  let totalEquity0 := (equity.map (fun a => -(bal a))).sum
  let totalIncome := (incomeAccts.map (fun a => -(bal a))).sum
  let totalExpenses := (expenseAccts.map bal).sum
  let netIncome := totalIncome - totalExpenses
  let equityLines0 := equity.map (fun a => BalanceLine.mk a.name |bal a|)
  let equityLines :=
    if netIncome = 0 then equityLines0
    else equityLines0 ++ [BalanceLine.mk "Utili di esercizio" |netIncome|]
  let totalEquity := if netIncome = 0 then totalEquity0 else totalEquity0 + netIncome
  { assets := assets.map (fun a => BalanceLine.mk a.name |bal a|),
    liabilities := liabilities.map (fun a => BalanceLine.mk a.name |bal a|),
    equity := equityLines,
    total_assets := totalAssets,
    total_liabilities := totalLiabilities,
    total_equity := totalEquity,
    net_income := netIncome,
    total_liabilities_and_equity := totalLiabilities + totalEquity }

/-! ### Staging reconciler (`services.py` lines 1042–1102) -/

/-- The two journal entries `process_staged_transaction` builds: a positive
amount debits the primary account and credits the counterpart; a negative one
credits the primary account and debits the counterpart for the absolute
value (a zero amount leaves all four amounts zero). -/
def stagedEntries (st : StagedRow) (cp : Nat) : List JournalEntryCreate :=
  [ ⟨st.account_id,
      (if 0 < st.amount then st.amount else 0),
      (if st.amount < 0 then |st.amount| else 0)⟩,
    ⟨some cp,
      (if st.amount < 0 then |st.amount| else 0),
      (if 0 < st.amount then st.amount else 0)⟩ ]

/-- The `TransactionCreate` payload handed to `create_transaction` by
`process_staged_transaction` (payload defaults: no reference, `completed`). -/
def stagedPayload (st : StagedRow) (cp : Nat) : TransactionCreate :=
  ⟨st.transaction_date, st.description, none, .completed, stagedEntries st cp⟩

/-- Mark a staged row processed with a timestamp. -/
def markProcessed (l : List StagedRow) (sid : Nat) (d : Date) : List StagedRow :=
  l.map (fun x => if x.id == sid then { x with status := .processed, processed_at := some d } else x)

/-- Mark a staged row failed with the error message. -/
def markError (l : List StagedRow) (sid : Nat) (m : String) : List StagedRow :=
  l.map (fun x => if x.id == sid then { x with status := .error, error_message := some m } else x)

/-- `BookkeepingService.process_staged_transaction`: guard on existence, on an
assigned primary account and on not-yet-processed status; then delegate the
two-entry payload to `create_transaction`; success marks the row processed,
failure marks it errored and re-raises with a wrapped message. -/
def processStagedTransaction (today : Date) (s : State) (sid cp : Nat) :
    State × Except String TransactionRow :=
  match s.staged.find? (fun x => x.id == sid) with
  | none => (s, .error "Staged transaction not found")
  | some st =>
    if st.account_id.isNone then
      (s, .error "Staged transaction has no primary account assigned")
    else if st.status = .processed then
      (s, .error "Transaction has already been processed")
    else
      match createTransaction today s (stagedPayload st cp) with
      | (s', .ok t) => ({ s' with staged := markProcessed s'.staged sid today }, .ok t)
      | (_, .error m) =>
        ({ s with staged := markError s.staged sid m },
         .error ("Error processing staged transaction: " ++ m))

/-! ### Derived predicates used by the statements -/

/-- The stored journal entries of one transaction. -/
def txnEntries (s : State) (tid : Nat) : List JournalEntryRow :=
  s.entries.filter (fun e => e.transaction_id == tid)

/-- Every stored transaction balances within the posting tolerance of 0.01. -/
def Balanced01 (s : State) : Prop :=
  ∀ t ∈ s.transactions,
    |sumDebit (txnEntries s t.id) - sumCredit (txnEntries s t.id)| < 1 / 100

/-- Every stored transaction balances exactly. -/
def BalancedExact (s : State) : Prop :=
  ∀ t ∈ s.transactions,
    sumDebit (txnEntries s t.id) = sumCredit (txnEntries s t.id)

/-- Stored transaction ids and entry foreign keys lie below the id supply
(true of every state built by the service, since `uuid4` never collides). -/
def IdsBounded (s : State) : Prop :=
  (∀ t ∈ s.transactions, t.id < s.nextId) ∧
    (∀ e ∈ s.entries, e.transaction_id < s.nextId)

/-- States whose journal was produced by a sequence of `create_transaction`
and `update_transaction` calls (successful or failed), starting from a state
with an empty journal and arbitrary accounts. -/
inductive Reach : State → Prop
  | base (s : State) : s.transactions = [] → s.entries = [] → Reach s
  | post (s : State) (today : Date) (td : TransactionCreate) :
      Reach s → Reach (createTransaction today s td).1
  | upd (s : State) (tid : Nat) (td : TransactionCreate) :
      Reach s → Reach (updateTransaction s tid td).1

/-- The account codes of one type, in creation order. -/
def typeCodes (s : State) (t : AccountType) : List String :=
  (s.accounts.filter (fun a => decide (a.type = t))).map (·.code)

/-- A sequence of `create_account` calls. -/
def runCreates (s : State) (ops : List AccountCreate) : State :=
  ops.foldl (fun st d => (createAccount st d).1) s

/-- How many of the requested creations are of the given type. -/
def countType (ops : List AccountCreate) (t : AccountType) : Nat :=
  (ops.filter (fun d => decide (d.type = t))).length

/-! ### Concrete fixtures used by witnesses and counterexamples -/

/-- A cash asset account. -/
def cashA : Account := ⟨1, none, "Cash", .asset, "A-001", none, true⟩

/-- A sales income account. -/
def salesA : Account := ⟨2, none, "Sales", .income, "R-001", none, true⟩

/-- An expense account. -/
def expenseA : Account := ⟨2, none, "Expense", .expense, "X-001", none, true⟩

/-- A liability account. -/
def loanL : Account := ⟨3, none, "Loan", .liability, "L-001", none, true⟩

/-- An equity account. -/
def capE : Account := ⟨4, none, "Capital", .equity, "E-001", none, true⟩

/-- A posting day distinct from the example transaction date 2024-01-05. -/
def day0 : Date := ⟨2024, 2, 1⟩

/-- An empty ledger with the Cash and Sales accounts. -/
def twoAccountState : State := ⟨[], [cashA, salesA], [], [], [], 10⟩

/-- The spec's example posting: debit Cash 100.00, credit Sales 100.00,
dated 2024-01-05. -/
def saleBalanced : TransactionCreate :=
  ⟨⟨2024, 1, 5⟩, "Sale", none, .completed, [⟨some 1, 100, 0⟩, ⟨some 2, 0, 100⟩]⟩

/-- The spec's rejected posting: debit Cash 50.00, credit Sales 40.00. -/
def saleUnbalanced : TransactionCreate :=
  ⟨⟨2024, 1, 5⟩, "Sale", none, .completed, [⟨some 1, 50, 0⟩, ⟨some 2, 0, 40⟩]⟩

/-- A stored transaction used as update target. -/
def txC2 : TransactionRow := ⟨10, ⟨2024, 1, 5⟩, "t", .completed, none⟩

/-- A ledger holding one balanced transaction over Cash and Sales. -/
def stateC2 : State :=
  ⟨[], [cashA, salesA], [txC2], [⟨20, 10, 1, 100, 0⟩, ⟨21, 10, 2, 0, 100⟩], [], 30⟩

/-- An entry set using the same account on both sides (debits equal credits). -/
def dupEntries : TransactionCreate :=
  ⟨⟨2024, 1, 6⟩, "x", none, .completed, [⟨some 1, 100, 0⟩, ⟨some 1, 0, 100⟩]⟩

/-- A staged bank outflow of 25.00 on the Cash account. -/
def stagedOutflow : StagedRow :=
  ⟨5, 7, ⟨2024, 3, 1⟩, "Coffee", -25, .pending, some 1, none, none⟩

/-- A ledger with the staged outflow pending. -/
def stateC8 : State := ⟨[], [cashA, expenseA], [], [], [stagedOutflow], 30⟩

/-- The processing day of the staged outflow. -/
def dayC8 : Date := ⟨2024, 3, 2⟩

/-- The ledger after the staged outflow has been processed. -/
def stateC8done : State :=
  ⟨[], [cashA, expenseA],
    [⟨30, ⟨2024, 3, 1⟩, "Coffee", .completed, some "TXN-20240302-001"⟩],
    [⟨31, 30, 1, 0, 25⟩, ⟨32, 30, 2, 25, 0⟩],
    [⟨5, 7, ⟨2024, 3, 1⟩, "Coffee", -25, .processed, some 1, none, some ⟨2024, 3, 2⟩⟩],
    33⟩

/-- The staged outflow already marked processed, journal still empty. -/
def stateC8proc : State :=
  ⟨[], [cashA, expenseA], [], [],
    [⟨5, 7, ⟨2024, 3, 1⟩, "Coffee", -25, .processed, some 1, none, none⟩], 30⟩

/-- An account-update payload renaming and deactivating an asset account. -/
def updPayload : AccountCreate := ⟨none, "Cassa", .asset, some "main cash", false⟩

/-- A ledger with one balanced 4-entry journal over all five account types. -/
def stateC5 : State :=
  ⟨[], [cashA, salesA, loanL, capE],
    [⟨10, ⟨2024, 1, 5⟩, "Sale", .completed, none⟩,
     ⟨11, ⟨2024, 1, 7⟩, "Loan", .completed, none⟩],
    [⟨20, 10, 1, 100, 0⟩, ⟨21, 10, 2, 0, 100⟩,
     ⟨22, 11, 1, 50, 0⟩, ⟨23, 11, 3, 0, 50⟩],
    [], 40⟩

/-- A short interleaved account-creation sequence. -/
def opsC4 : List AccountCreate :=
  [⟨none, "a1", .asset, none, true⟩, ⟨none, "l1", .liability, none, true⟩,
   ⟨none, "a2", .asset, none, true⟩]

/-- A state with no accounts at all. -/
def emptyState : State := ⟨[], [], [], [], [], 0⟩

/-- The transaction row created by posting `saleBalanced` on `day0`. -/
def saleRow : TransactionRow :=
  ⟨10, ⟨2024, 1, 5⟩, "Sale", .completed, some "TXN-20240201-001"⟩

/-- The ledger after posting `saleBalanced` on `day0`. -/
def stateSaleDone : State :=
  ⟨[], [cashA, salesA], [saleRow], [⟨11, 10, 1, 100, 0⟩, ⟨12, 10, 2, 0, 100⟩], [], 13⟩

/-- The transaction row created by processing the staged outflow. -/
def coffeeRow : TransactionRow :=
  ⟨30, ⟨2024, 3, 1⟩, "Coffee", .completed, some "TXN-20240302-001"⟩

/-! ## Theorems -/

/-- C6: if `postTransaction` fails (in particular during entry validation —
too few valid entries, nonexistent account, duplicate account, negative
amount, entry both debited and credited, or unbalanced totals), the journal
state afterwards equals the state before the call, so no transaction header
and no journal-entry row of the failed attempt is observable afterwards. -/
theorem C6_no_partial_commit (today : Date) (s : State) (td : TransactionCreate)
    (m : String) (h : (createTransaction today s td).2 = .error m) :
    (createTransaction today s td).1 = s := by
  unfold createTransaction at h ⊢
  cases hc : createTransactionChecked today s td with
  | error e => rfl
  | ok p =>
    obtain ⟨s1, t1⟩ := p
    rw [hc] at h
    simp at h

/-- Witness for C6: the spec's rejected posting (debit Cash 50.00, credit
Sales 40.00) leaves the two-account ledger unchanged. -/
theorem C6_no_partial_commit_witness :
    (createTransaction day0 twoAccountState saleUnbalanced).1 = twoAccountState :=
  C6_no_partial_commit day0 twoAccountState saleUnbalanced
    "Total debits must equal total credits" (by decide)

/-- C9: an `updateAccount` call accepted for an existing account (same type,
valid category) replaces `category_id`, `name`, `description` and `is_active`
wholesale but never modifies the stored `code` (nor any other account's). -/
theorem C9_update_account_keeps_code (s : State) (aid : Nat) (d : AccountCreate)
    (acct : Account) (hf : s.accounts.find? (fun a => a.id == aid) = some acct)
    (ht : d.type = acct.type) (hcat : categoryOkB s d.category_id = true) :
    (updateAccount s aid d).2 = .ok (some (applyAccountFields acct d))
    ∧ (applyAccountFields acct d).code = acct.code
    ∧ (updateAccount s aid d).1.accounts.map (·.code) = s.accounts.map (·.code)
    ∧ (applyAccountFields acct d).name = d.name
    ∧ (applyAccountFields acct d).category_id = d.category_id
    ∧ (applyAccountFields acct d).description = d.description
    ∧ (applyAccountFields acct d).is_active = d.is_active := by
  simp only [updateAccount, hf, hcat, ht, eq_self_iff_true, if_true]
  refine ⟨trivial, rfl, ?_, rfl, rfl, rfl, rfl⟩
  rw [List.map_map]
  apply List.map_congr_left
  intro a _
  by_cases hid : a.id = aid
  · simp [hid, applyAccountFields]
  · simp [hid]

/-- Witness for C9: renaming and deactivating the Cash account keeps its
code `A-001`. -/
theorem C9_update_account_keeps_code_witness :
    (updateAccount twoAccountState 1 updPayload).2 =
      .ok (some (applyAccountFields cashA updPayload))
    ∧ (applyAccountFields cashA updPayload).code = cashA.code :=
  ⟨(C9_update_account_keeps_code twoAccountState 1 updPayload cashA
      (by decide) (by decide) (by decide)).1,
   (C9_update_account_keeps_code twoAccountState 1 updPayload cashA
      (by decide) (by decide) (by decide)).2.1⟩

/-- C10: `delete_journal_entry` returns `false` on an unknown entry id;
for an existing entry it deletes the row and returns `true` exactly when the
parent transaction's remaining entries still have equal debit and credit
totals, and otherwise raises and leaves the state (entry and transaction)
unchanged. -/
theorem C10_delete_journal_entry (s : State) (eid : Nat) :
    (s.entries.find? (fun x => x.id == eid) = none →
      deleteJournalEntry s eid = (s, .ok false))
    ∧ (∀ e, s.entries.find? (fun x => x.id == eid) = some e →
        (sumDebit (siblingEntries s e eid) = sumCredit (siblingEntries s e eid) →
          deleteJournalEntry s eid =
            ({ s with entries := s.entries.eraseP (fun x => x.id == eid) }, .ok true))
        ∧ (sumDebit (siblingEntries s e eid) ≠ sumCredit (siblingEntries s e eid) →
          deleteJournalEntry s eid =
            (s, .error "Cannot delete journal entry as it would unbalance the transaction"))) := by
  constructor
  · intro h
    unfold deleteJournalEntry
    rw [h]
  · intro e he
    constructor
    · intro hbal
      unfold deleteJournalEntry
      simp only [he, if_pos hbal]
    · intro hbal
      unfold deleteJournalEntry
      simp only [he, if_neg hbal]

/-- Witness for C10: removing the debit leg of a balanced two-entry
transaction would unbalance it, so the call raises and changes nothing. -/
theorem C10_delete_journal_entry_witness :
    deleteJournalEntry stateC2 20 =
      (stateC2, .error "Cannot delete journal entry as it would unbalance the transaction") :=
  (((C10_delete_journal_entry stateC2 20).2 ⟨20, 10, 1, 100, 0⟩ (by decide)).2 (by decide))

/-- Inversion for a successful `create_transaction`: success pins down the
validated entries, the passed checks, and the inserted state. -/
theorem createTransactionChecked_ok (today : Date) (s : State) (td : TransactionCreate)
    (p : State × TransactionRow) (h : createTransactionChecked today s td = .ok p) :
    ∃ ve totD totC, validateEntries s.accounts td.entries [] = .ok (ve, totD, totC)
      ∧ td.entries ≠ [] ∧ td.description ≠ "" ∧ ¬ ve.length < 2
      ∧ ¬ ((1 : Rat) / 100 ≤ |totD - totC|) ∧ p = insertTxn today s td ve := by
  unfold createTransactionChecked at h
  split at h
  next hne => exact absurd h (by simp)
  next hne =>
    split at h
    next hd => exact absurd h (by simp)
    next hd =>
      split at h
      next m heq => exact absurd h (by simp)
      next ve totD totC heq =>
        split at h
        next hlen => exact absurd h (by simp)
        next hlen =>
          split at h
          next htol => exact absurd h (by simp)
          next htol =>
            exact ⟨ve, totD, totC, heq, hne, hd, hlen, htol, by simpa using h.symm⟩

/-- `create_transaction` never touches the staged relation. -/
theorem createTransaction_staged (today : Date) (s : State) (td : TransactionCreate) :
    (createTransaction today s td).1.staged = s.staged := by
  unfold createTransaction
  cases hc : createTransactionChecked today s td with
  | error e => rfl
  | ok p =>
    obtain ⟨ve, totD, totC, _, _, _, _, _, hp⟩ := createTransactionChecked_ok today s td p hc
    rw [hp]
    rfl

/-- After `markProcessed`, every staged row carrying the processed id has
status `processed`. -/
theorem markProcessed_id_status (l : List StagedRow) (sid : Nat) (d : Date) :
    ∀ st ∈ markProcessed l sid d, st.id = sid → st.status = .processed := by
  intro st hmem hid
  unfold markProcessed at hmem
  rcases List.mem_map.mp hmem with ⟨x, hx, rfl⟩
  by_cases h : x.id = sid
  · simp [h]
  · simp [h] at hid

/-- `find?` by id commutes with `markProcessed`. -/
theorem find?_markProcessed (l : List StagedRow) (sid : Nat) (d : Date) (st : StagedRow)
    (h : l.find? (fun x => x.id == sid) = some st) :
    (markProcessed l sid d).find? (fun x => x.id == sid) =
      some { st with status := .processed, processed_at := some d } := by
  unfold markProcessed
  rw [List.find?_map]
  have hcomp :
      ((fun x : StagedRow => x.id == sid) ∘
        (fun x : StagedRow =>
          if x.id == sid then { x with status := ImportStatus.processed, processed_at := some d }
          else x)) = fun x : StagedRow => x.id == sid := by
    funext x
    by_cases hx : x.id = sid
    · simp [hx]
    · simp [hx]
  rw [hcomp, h]
  have hid : st.id = sid := by simpa using List.find?_some h
  simp [hid]

/-- C7: once `processStagedTransaction` has succeeded on a staged id, a second
call on that id (any day, any counterpart) fails with the already-processed
`ValidationError`, leaves the state — hence the journal — exactly as it was,
and the staged record keeps status `processed`. -/
theorem C7_staged_reprocessing_blocked (d1 d2 : Date) (s s1 : State) (sid cp1 cp2 : Nat)
    (t : TransactionRow)
    (h : processStagedTransaction d1 s sid cp1 = (s1, .ok t)) :
    processStagedTransaction d2 s1 sid cp2 =
      (s1, .error "Transaction has already been processed")
    ∧ ∀ st ∈ s1.staged, st.id = sid → st.status = .processed := by
  unfold processStagedTransaction at h
  cases hf : s.staged.find? (fun x => x.id == sid) with
  | none => rw [hf] at h; simp at h
  | some st =>
    simp only [hf] at h
    by_cases hacc : st.account_id.isNone
    · rw [if_pos hacc] at h; simp at h
    · rw [if_neg hacc] at h
      by_cases hst : st.status = .processed
      · rw [if_pos hst] at h; simp at h
      · rw [if_neg hst] at h
        cases hc : createTransaction d1 s (stagedPayload st cp1) with
        | mk s' r =>
          rw [hc] at h
          cases r with
          | error m => simp at h
          | ok t' =>
            simp only [Prod.mk.injEq] at h
            obtain ⟨hs1, _⟩ := h
            have hstag : s'.staged = s.staged := by
              have : (createTransaction d1 s (stagedPayload st cp1)).1 = s' := by rw [hc]
              rw [← this, createTransaction_staged]
            have hs1staged : s1.staged = markProcessed s.staged sid d1 := by
              rw [← hs1, ← hstag]
            have hfind :
                s1.staged.find? (fun x => x.id == sid) =
                  some { st with status := .processed, processed_at := some d1 } := by
              rw [hs1staged]
              exact find?_markProcessed s.staged sid d1 st hf
            constructor
            · unfold processStagedTransaction
              simp only [hfind]
              simp [hacc]
            · intro st' hmem hid
              rw [hs1staged] at hmem
              exact markProcessed_id_status s.staged sid d1 st' hmem hid

/-- Witness for C7: assign the processed ledger from `stateC8`'s staged
outflow, then reprocessing id 5 fails with the already-processed error. -/
theorem C7_staged_reprocessing_blocked_witness :
    processStagedTransaction dayC8 stateC8done 5 2 =
      (stateC8done, .error "Transaction has already been processed") :=
  (C7_staged_reprocessing_blocked dayC8 dayC8 stateC8 stateC8done 5 2 2 coffeeRow
    (by decide)).1

/-- C8 (amended): for a staged transaction that exists, has a primary account
assigned and is not already processed, `processStagedTransaction` builds
exactly the two-entry payload — amount ≥ 0 debits the primary account and
credits the counterpart for the amount, amount < 0 credits the primary
account and debits the counterpart for the absolute value — and delegates it
to `create_transaction`; concretely, processing the staged −25.00 outflow on
Cash with the Expense counterpart posts a transaction crediting Cash 25.00
and debiting Expense 25.00 and marks the staged record processed. -/
theorem C8_staged_sign_convention :
    (∀ (st : StagedRow) (cp : Nat), 0 ≤ st.amount →
        stagedEntries st cp = [⟨st.account_id, st.amount, 0⟩, ⟨some cp, 0, st.amount⟩])
    ∧ (∀ (st : StagedRow) (cp : Nat), st.amount < 0 →
        stagedEntries st cp =
          [⟨st.account_id, 0, |st.amount|⟩, ⟨some cp, |st.amount|, 0⟩])
    ∧ (∀ (today : Date) (s : State) (sid cp : Nat) (st : StagedRow),
        s.staged.find? (fun x => x.id == sid) = some st →
        st.account_id.isNone = false → st.status ≠ .processed →
        processStagedTransaction today s sid cp =
          (match createTransaction today s (stagedPayload st cp) with
           | (s', .ok t) => ({ s' with staged := markProcessed s'.staged sid today }, .ok t)
           | (_, .error m) =>
             ({ s with staged := markError s.staged sid m },
              .error ("Error processing staged transaction: " ++ m))))
    ∧ processStagedTransaction dayC8 stateC8 5 2 = (stateC8done, .ok coffeeRow)
    ∧ stateC8done.entries = [⟨31, 30, 1, 0, 25⟩, ⟨32, 30, 2, 25, 0⟩]
    ∧ (∀ st ∈ stateC8done.staged, st.status = .processed) := by
  refine ⟨?_, ?_, ?_, by decide, by decide, by decide⟩
  · intro st cp h
    unfold stagedEntries
    rcases h.lt_or_eq with hlt | heq
    · rw [if_pos hlt, if_neg (not_lt.mpr h)]
    · rw [if_neg (by rw [← heq]; exact lt_irrefl 0), if_neg (by rw [← heq]; exact lt_irrefl 0),
        ← heq]
  · intro st cp h
    unfold stagedEntries
    rw [if_neg (not_lt.mpr h.le), if_pos h, abs_of_neg h]
  · intro today s sid cp st hf hacc hst
    unfold processStagedTransaction
    simp only [hf]
    rw [if_neg (by simp [hacc]), if_neg hst]

/-- Witness for C8: the staged −25.00 outflow on Cash yields the
credit-Cash/debit-Expense entry pair. -/
theorem C8_staged_sign_convention_witness :
    stagedEntries stagedOutflow 2 = [⟨some 1, 0, 25⟩, ⟨some 2, 25, 0⟩] := by
  have h := C8_staged_sign_convention.2.1 stagedOutflow 2 (by decide)
  simpa using h

/-- Counterexample for C8 as stated: a staged transaction with an assigned
primary account whose status is already `processed` is not processed again —
no two-entry transaction is built or posted, the call raises instead. -/
theorem C8_staged_sign_convention_counterexample :
    processStagedTransaction dayC8 stateC8proc 5 2 =
      (stateC8proc, .error "Transaction has already been processed")
    ∧ (processStagedTransaction dayC8 stateC8proc 5 2).1.transactions = [] :=
  ⟨by decide, by decide⟩

/-- The entry loop of `update_transaction` succeeds exactly when every
submitted entry's account id resolves to an existing account. -/
theorem checkUpdateEntries_ok_iff (accounts : List Account) (l : List JournalEntryCreate) :
    (∃ ve, checkUpdateEntries accounts l = .ok ve) ↔
      ∀ e ∈ l, ∃ a ∈ accounts, e.account_id = some a.id := by
  induction l with
  | nil => simp [checkUpdateEntries]
  | cons e rest ih =>
    cases hb : e.account_id.bind (fun aid => accounts.find? (fun a => a.id == aid)) with
    | none =>
      simp only [checkUpdateEntries, hb]
      constructor
      · rintro ⟨ve, hve⟩
        simp at hve
      · intro hall
        exfalso
        obtain ⟨a, ha, hea⟩ := hall e (List.mem_cons_self e rest)
        rw [hea] at hb
        simp only [Option.some_bind] at hb
        rw [List.find?_eq_none] at hb
        exact absurd (by simp : ((fun x : Account => x.id == a.id) a) = true) (by simpa using hb a ha)
    | some a =>
      cases hr : checkUpdateEntries accounts rest with
      | error m =>
        simp only [checkUpdateEntries, hb, hr]
        constructor
        · rintro ⟨ve, hve⟩
          simp at hve
        · intro hall
          exfalso
          obtain ⟨ve, hve⟩ := ih.mpr (fun x hx => hall x (List.mem_cons_of_mem e hx))
          rw [hve] at hr
          cases hr
      | ok ve =>
        simp only [checkUpdateEntries, hb, hr]
        constructor
        · intro _
          intro x hx
          rcases List.mem_cons.mp hx with hxe | hxr
          · subst hxe
            cases he : x.account_id with
            | none => rw [he] at hb; simp at hb
            | some aid =>
              rw [he] at hb
              simp only [Option.some_bind] at hb
              have hmem := List.mem_of_find?_eq_some hb
              have hpred := List.find?_some hb
              refine ⟨a, hmem, ?_⟩
              have : a.id = aid := by simpa using hpred
              rw [this]
          · exact ih.mp ⟨ve, hr⟩ x hxr
        · intro _
          exact ⟨⟨a.id, e.debit_amount, e.credit_amount⟩ :: ve, rfl⟩

/-- C2 (amended): for an existing transaction, `updateTransaction` accepts a
replacement entry set exactly when every submitted entry's account exists and
the raw total debits equal the raw total credits; unlike `postTransaction` it
filters nothing, never requires two entries, never rejects duplicate
accounts, negative amounts or entries both debited and credited, and its
balance check is exact equality rather than the 0.01 tolerance, so its
verdict does not coincide with `postTransaction`'s. -/
theorem C2_update_validation_weaker (s : State) (tid : Nat) (td : TransactionCreate)
    (tr : TransactionRow) (hf : s.transactions.find? (fun t => t.id == tid) = some tr) :
    (∃ r, (updateTransaction s tid td).2 = .ok r) ↔
      ((∀ e ∈ td.entries, ∃ a ∈ s.accounts, e.account_id = some a.id) ∧
        sumDebitC td.entries = sumCreditC td.entries) := by
  unfold updateTransaction
  simp only [hf]
  cases hc : checkUpdateEntries s.accounts td.entries with
  | error m =>
    constructor
    · rintro ⟨r, hr⟩
      simp at hr
    · rintro ⟨hall, -⟩
      obtain ⟨ve, hve⟩ := (checkUpdateEntries_ok_iff s.accounts td.entries).mpr hall
      rw [hve] at hc
      cases hc
  | ok ve =>
    by_cases hbal : sumDebitC td.entries = sumCreditC td.entries
    · simp only [if_pos hbal]
      exact ⟨fun _ => ⟨(checkUpdateEntries_ok_iff s.accounts td.entries).mp ⟨ve, hc⟩, hbal⟩,
        fun _ => ⟨some (applyTxnFields tr td), rfl⟩⟩
    · simp only [if_neg hbal]
      constructor
      · rintro ⟨r, hr⟩
        simp at hr
      · rintro ⟨-, hbal'⟩
        exact absurd hbal' hbal

/-- Witness for C2's amended statement: on `stateC2` the duplicate-account
entry set is accepted by `updateTransaction` because both entries resolve to
the Cash account and the raw totals agree. -/
theorem C2_update_validation_weaker_witness :
    ∃ r, (updateTransaction stateC2 10 dupEntries).2 = .ok r :=
  (C2_update_validation_weaker stateC2 10 dupEntries txC2 (by decide)).mpr
    ⟨by decide, by decide⟩

/-- Counterexample for C2 as stated: on the same entry set (the Cash account
debited 100.00 in one entry and credited 100.00 in another),
`updateTransaction` accepts while `postTransaction` rejects with the
duplicate-account `ValidationError`, so the two verdicts differ. -/
theorem C2_update_validation_weaker_counterexample :
    (updateTransaction stateC2 10 dupEntries).2 =
      .ok (some (applyTxnFields txC2 dupEntries))
    ∧ (createTransaction day0 stateC2 dupEntries).2 =
      .error "Account Cash is used multiple times" :=
  ⟨by decide, by decide⟩

/-- The per-day sequence number is always at least 1. -/
theorem nextRefNumber_pos (cs : List Char) : 1 ≤ nextRefNumber cs := by
  cases hg : (splitChars '-' cs)[2]? with
  | none => simp [nextRefNumber, hg]
  | some piece =>
    cases hp : parseIntChars piece with
    | none => simp [nextRefNumber, hg, hp]
    | some k => simp only [nextRefNumber, hg, hp]; omega

/-- Every generated reference is today's lead followed by a padded sequence
number at least 1. -/
theorem generateTransactionReference_form (today : Date) (ts : List TransactionRow) :
    ∃ n, 1 ≤ n ∧ generateTransactionReference today ts = ⟨txnPfxChars today ++ pad3 n⟩ := by
  unfold generateTransactionReference
  cases lexMaxStr (todayRefs today ts) with
  | none => exact ⟨1, le_refl 1, rfl⟩
  | some top => exact ⟨nextRefNumber top.data, nextRefNumber_pos top.data, rfl⟩

/-- With no stored reference for today, the generated sequence number is 001. -/
theorem generateTransactionReference_first (today : Date) (ts : List TransactionRow)
    (h : todayRefs today ts = []) :
    generateTransactionReference today ts = ⟨txnPfxChars today ++ pad3 1⟩ := by
  unfold generateTransactionReference
  rw [h]
  rfl

/-- A successfully posted transaction carries the reference generated from
the posting day and the pre-call journal. -/
theorem createTransaction_ok_reference (today : Date) (s : State) (td : TransactionCreate)
    (s' : State) (t : TransactionRow) (h : createTransaction today s td = (s', .ok t)) :
    t.reference_number = some (generateTransactionReference today s.transactions) := by
  unfold createTransaction at h
  cases hc : createTransactionChecked today s td with
  | error e => rw [hc] at h; simp at h
  | ok p =>
    obtain ⟨s1, t1⟩ := p
    rw [hc] at h
    simp only [Prod.mk.injEq, Except.ok.injEq] at h
    obtain ⟨ve, totD, totC, hval, hne, hd, hlen, htol, hp⟩ :=
      createTransactionChecked_ok today s td (s1, t1) hc
    have ht1 : t1 = (insertTxn today s td ve).2 := by rw [← hp]
    rw [← h.2, ht1]
    rfl

/-- C3 (amended): the reference assigned by `postTransaction` has the form
`TXN-YYYYMMDD-NNN` where `YYYYMMDD` is the **current date of the call**
(`datetime.now()`), not the transaction's `transaction_date`, and `NNN` is a
per-posting-day sequence; posting on a day with no stored reference for that
day yields `NNN = 001`. -/
theorem C3_reference_uses_posting_day (today : Date) (s : State) (td : TransactionCreate)
    (s' : State) (t : TransactionRow) (h : createTransaction today s td = (s', .ok t)) :
    (∃ n, 1 ≤ n ∧ t.reference_number = some ⟨txnPfxChars today ++ pad3 n⟩)
    ∧ (todayRefs today s.transactions = [] →
        t.reference_number = some ⟨txnPfxChars today ++ pad3 1⟩) := by
  have href := createTransaction_ok_reference today s td s' t h
  constructor
  · obtain ⟨n, hn, hgen⟩ := generateTransactionReference_form today s.transactions
    exact ⟨n, hn, by rw [href, hgen]⟩
  · intro hempty
    rw [href, generateTransactionReference_first today s.transactions hempty]

/-- Witness for C3's amended statement: the first posting made on 2024-02-01
gets sequence number 001 for that posting day. -/
theorem C3_reference_uses_posting_day_witness :
    saleRow.reference_number = some ⟨txnPfxChars day0 ++ pad3 1⟩ :=
  (C3_reference_uses_posting_day day0 twoAccountState saleBalanced stateSaleDone saleRow
    (by decide)).2 (by decide)

/-- Counterexample for C3 as stated: posting the first transaction dated
2024-01-05 on the calendar day 2024-02-01 yields reference
`TXN-20240201-001`, not `TXN-20240105-001` — the date component follows the
day of the call, not the transaction date. -/
theorem C3_reference_uses_posting_day_counterexample :
    (createTransaction day0 twoAccountState saleBalanced).2 = .ok saleRow
    ∧ saleRow.reference_number = some "TXN-20240201-001"
    ∧ saleRow.reference_number ≠ some "TXN-20240105-001" :=
  ⟨by decide, by decide, by decide⟩

/-- The totals returned by the entry-validation loop are the sums of the
validated entries' amounts. -/
theorem validateEntries_totals (accounts : List Account) (l : List JournalEntryCreate) :
    ∀ (used : List Nat) (ve : List ValidEntry) (totD totC : Rat),
    validateEntries accounts l used = .ok (ve, totD, totC) →
    totD = (ve.map (·.debit_amount)).sum ∧ totC = (ve.map (·.credit_amount)).sum := by
  induction l with
  | nil =>
    intro used ve totD totC h
    unfold validateEntries at h
    simp only [Except.ok.injEq, Prod.mk.injEq] at h
    obtain ⟨hve, hD, hC⟩ := h
    subst hve
    subst hD
    subst hC
    simp
  | cons e rest ih =>
    intro used ve totD totC h
    unfold validateEntries at h
    split at h
    · exact ih _ _ _ _ h
    · split at h
      · exact ih _ _ _ _ h
      · split at h
        · simp at h
        · split at h
          · simp at h
          · split at h
            · simp at h
            · split at h
              · simp at h
              · split at h
                · simp at h
                next ve' totD' totC' heq =>
                  simp only [Except.ok.injEq, Prod.mk.injEq] at h
                  obtain ⟨hve, hD, hC⟩ := h
                  obtain ⟨ihD, ihC⟩ := ih _ _ _ _ heq
                  subst hve
                  subst hD
                  subst hC
                  simp [ihD, ihC]

/-- Every row built by `mkRows` points at the given transaction. -/
theorem mkRows_tid (tid : Nat) (ve : List ValidEntry) :
    ∀ (base : Nat), ∀ r ∈ mkRows base tid ve, r.transaction_id = tid := by
  induction ve with
  | nil => intro base r hr; cases hr
  | cons v vs ih =>
    intro base r hr
    rcases List.mem_cons.mp hr with rfl | hr'
    · rfl
    · exact ih (base + 1) r hr'

/-- The debit column of the built rows sums to the validated entries' total. -/
theorem mkRows_sumDebit (tid : Nat) (ve : List ValidEntry) :
    ∀ (base : Nat), sumDebit (mkRows base tid ve) = (ve.map (·.debit_amount)).sum := by
  induction ve with
  | nil => intro base; rfl
  | cons v vs ih =>
    intro base
    simp only [mkRows, sumDebit, List.map_cons, List.sum_cons]
    have := ih (base + 1)
    simp only [sumDebit] at this
    rw [this]

/-- The credit column of the built rows sums to the validated entries' total. -/
theorem mkRows_sumCredit (tid : Nat) (ve : List ValidEntry) :
    ∀ (base : Nat), sumCredit (mkRows base tid ve) = (ve.map (·.credit_amount)).sum := by
  induction ve with
  | nil => intro base; rfl
  | cons v vs ih =>
    intro base
    simp only [mkRows, sumCredit, List.map_cons, List.sum_cons]
    have := ih (base + 1)
    simp only [sumCredit] at this
    rw [this]

/-- Inserting a validated, tolerance-balanced transaction preserves the
journal invariants. -/
theorem insertTxn_inv (today : Date) (s : State) (td : TransactionCreate)
    (ve : List ValidEntry) (hb : Balanced01 s) (hi : IdsBounded s)
    (htol : |(ve.map (·.debit_amount)).sum - (ve.map (·.credit_amount)).sum| < 1 / 100) :
    Balanced01 (insertTxn today s td ve).1 ∧ IdsBounded (insertTxn today s td ve).1 := by
  have hentries : (insertTxn today s td ve).1.entries =
      s.entries ++ mkRows (s.nextId + 1) s.nextId ve := rfl
  have htxns : (insertTxn today s td ve).1.transactions =
      s.transactions ++ [(insertTxn today s td ve).2] := rfl
  have htid : (insertTxn today s td ve).2.id = s.nextId := rfl
  have hnext : (insertTxn today s td ve).1.nextId = s.nextId + 1 + ve.length := rfl
  have hrows_nil : ∀ tid', tid' < s.nextId →
      (mkRows (s.nextId + 1) s.nextId ve).filter (fun e => e.transaction_id == tid') = [] := by
    intro tid' hlt
    rw [List.filter_eq_nil_iff]
    intro r hr
    have hrt := mkRows_tid s.nextId ve (s.nextId + 1) r hr
    simp [hrt]
    omega
  constructor
  · intro t ht
    rw [htxns] at ht
    rcases List.mem_append.mp ht with hold | hnew
    · have hlt := hi.1 t hold
      unfold txnEntries
      rw [hentries, List.filter_append, hrows_nil t.id hlt, List.append_nil]
      exact hb t hold
    · have heq : t = (insertTxn today s td ve).2 := by simpa using hnew
      subst heq
      unfold txnEntries
      rw [hentries, List.filter_append, htid]
      have hold_nil : s.entries.filter
          (fun e => e.transaction_id == s.nextId) = [] := by
        rw [List.filter_eq_nil_iff]
        intro e he
        have := hi.2 e he
        simp
        omega
      have hall : (mkRows (s.nextId + 1) s.nextId ve).filter
          (fun e => e.transaction_id == s.nextId) = mkRows (s.nextId + 1) s.nextId ve := by
        rw [List.filter_eq_self]
        intro r hr
        simp [mkRows_tid s.nextId ve (s.nextId + 1) r hr]
      rw [hold_nil, hall, List.nil_append, mkRows_sumDebit, mkRows_sumCredit]
      exact htol
  · constructor
    · intro t ht
      rw [htxns] at ht
      rw [hnext]
      rcases List.mem_append.mp ht with hold | hnew
      · have := hi.1 t hold
        omega
      · have heq : t = (insertTxn today s td ve).2 := by simpa using hnew
        subst heq
        rw [htid]
        omega
    · intro e he
      rw [hentries] at he
      rw [hnext]
      rcases List.mem_append.mp he with hold | hnew
      · have := hi.2 e hold
        omega
      · have := mkRows_tid s.nextId ve (s.nextId + 1) e hnew
        omega

/-- A `create_transaction` call, successful or not, preserves the journal
invariants. -/
theorem createTransaction_preserves (today : Date) (s : State) (td : TransactionCreate)
    (hb : Balanced01 s) (hi : IdsBounded s) :
    Balanced01 (createTransaction today s td).1 ∧ IdsBounded (createTransaction today s td).1 := by
  unfold createTransaction
  cases hc : createTransactionChecked today s td with
  | error e => exact ⟨hb, hi⟩
  | ok p =>
    obtain ⟨ve, totD, totC, hval, hne, hd, hlen, htol, hp⟩ :=
      createTransactionChecked_ok today s td p hc
    obtain ⟨hD, hC⟩ := validateEntries_totals s.accounts td.entries [] ve totD totC hval
    have htol' : |(ve.map (·.debit_amount)).sum - (ve.map (·.credit_amount)).sum| < 1 / 100 := by
      rw [← hD, ← hC]
      exact lt_of_not_le htol
    rw [hp]
    exact insertTxn_inv today s td ve hb hi htol'

/-- The entries inserted by `update_transaction` carry exactly the submitted
amounts. -/
theorem checkUpdateEntries_amounts (accounts : List Account) (l : List JournalEntryCreate) :
    ∀ ve, checkUpdateEntries accounts l = .ok ve →
    ve.map (·.debit_amount) = l.map (·.debit_amount) ∧
      ve.map (·.credit_amount) = l.map (·.credit_amount) := by
  induction l with
  | nil =>
    intro ve h
    unfold checkUpdateEntries at h
    simp only [Except.ok.injEq] at h
    subst h
    simp
  | cons e rest ih =>
    intro ve h
    unfold checkUpdateEntries at h
    split at h
    · simp at h
    · split at h
      · simp at h
      next ve' hr =>
        simp only [Except.ok.injEq] at h
        subst h
        obtain ⟨ihd, ihc⟩ := ih ve' hr
        simp [ihd, ihc]

/-- Replacing one transaction's entries by an exactly balanced set preserves
the journal invariants. -/
theorem updState_inv (s : State) (tid : Nat) (td : TransactionCreate) (ve : List ValidEntry)
    (hb : Balanced01 s) (hi : IdsBounded s) (htid : tid < s.nextId)
    (hsum : (ve.map (·.debit_amount)).sum = (ve.map (·.credit_amount)).sum) :
    Balanced01 { s with
        transactions :=
          s.transactions.map (fun t => if t.id == tid then applyTxnFields t td else t),
        entries :=
          (s.entries.filter (fun e => !(e.transaction_id == tid))) ++ mkRows s.nextId tid ve,
        nextId := s.nextId + ve.length }
    ∧ IdsBounded { s with
        transactions :=
          s.transactions.map (fun t => if t.id == tid then applyTxnFields t td else t),
        entries :=
          (s.entries.filter (fun e => !(e.transaction_id == tid))) ++ mkRows s.nextId tid ve,
        nextId := s.nextId + ve.length } := by
  constructor
  · intro t' ht'
    obtain ⟨t, ht, rfl⟩ := List.mem_map.mp ht'
    have hfid : (if t.id == tid then applyTxnFields t td else t).id = t.id := by
      split
      · rfl
      · rfl
    unfold txnEntries
    simp only [hfid]
    rw [List.filter_append]
    by_cases hcase : t.id = tid
    · have h1 : (s.entries.filter (fun e => !(e.transaction_id == tid))).filter
          (fun e => e.transaction_id == t.id) = [] := by
        rw [List.filter_filter, List.filter_eq_nil_iff]
        intro e he
        rw [hcase]
        by_cases hx : e.transaction_id = tid
        · simp [hx]
        · simp [hx]
      have h2 : (mkRows s.nextId tid ve).filter (fun e => e.transaction_id == t.id) =
          mkRows s.nextId tid ve := by
        rw [List.filter_eq_self]
        intro r hr
        simp [mkRows_tid tid ve s.nextId r hr, hcase]
      rw [h1, h2, List.nil_append, mkRows_sumDebit, mkRows_sumCredit, hsum]
      simp
    · have h1 : (s.entries.filter (fun e => !(e.transaction_id == tid))).filter
          (fun e => e.transaction_id == t.id) =
          s.entries.filter (fun e => e.transaction_id == t.id) := by
        rw [List.filter_filter]
        apply List.filter_congr
        intro e he
        by_cases hx : e.transaction_id = t.id
        · simp [hx, hcase]
        · simp [hx]
      have h2 : (mkRows s.nextId tid ve).filter (fun e => e.transaction_id == t.id) = [] := by
        rw [List.filter_eq_nil_iff]
        intro r hr
        have hrt := mkRows_tid tid ve s.nextId r hr
        simp [hrt]
        omega
      rw [h1, h2, List.append_nil]
      exact hb t ht
  · constructor
    · intro t' ht'
      obtain ⟨t, ht, rfl⟩ := List.mem_map.mp ht'
      have hfid : (if t.id == tid then applyTxnFields t td else t).id = t.id := by
        split
        · rfl
        · rfl
      rw [hfid]
      have := hi.1 t ht
      show t.id < s.nextId + ve.length
      omega
    · intro e he
      rcases List.mem_append.mp he with h1 | h2
      · have := hi.2 e (List.mem_of_mem_filter h1)
        show e.transaction_id < s.nextId + ve.length
        omega
      · have := mkRows_tid tid ve s.nextId e h2
        show e.transaction_id < s.nextId + ve.length
        omega

/-- An `update_transaction` call, successful or not, preserves the journal
invariants. -/
theorem updateTransaction_preserves (s : State) (tid : Nat) (td : TransactionCreate)
    (hb : Balanced01 s) (hi : IdsBounded s) :
    Balanced01 (updateTransaction s tid td).1 ∧ IdsBounded (updateTransaction s tid td).1 := by
  unfold updateTransaction
  cases hf : s.transactions.find? (fun t => t.id == tid) with
  | none => exact ⟨hb, hi⟩
  | some tr =>
    cases hc : checkUpdateEntries s.accounts td.entries with
    | error m => exact ⟨hb, hi⟩
    | ok ve =>
      by_cases hbal : sumDebitC td.entries = sumCreditC td.entries
      · simp only [if_pos hbal]
        have htid : tid < s.nextId := by
          have hmem := List.mem_of_find?_eq_some hf
          have hpred := List.find?_some hf
          have heq : tr.id = tid := by simpa using hpred
          have := hi.1 tr hmem
          omega
        obtain ⟨hmd, hmc⟩ := checkUpdateEntries_amounts s.accounts td.entries ve hc
        have hsum : (ve.map (·.debit_amount)).sum = (ve.map (·.credit_amount)).sum := by
          rw [hmd, hmc]
          exact hbal
        exact updState_inv s tid td ve hb hi htid hsum
      · simp only [if_neg hbal]
        exact ⟨hb, hi⟩

/-- Any state reachable by posting and updating transactions from an empty
journal satisfies the journal invariants. -/
theorem reach_invariant (s : State) (h : Reach s) : Balanced01 s ∧ IdsBounded s := by
  induction h with
  | base s ht he =>
    refine ⟨?_, ?_, ?_⟩
    · intro t htm
      rw [ht] at htm
      cases htm
    · intro t htm
      rw [ht] at htm
      cases htm
    · intro e hem
      rw [he] at hem
      cases hem
  | post s today td hr ih => exact createTransaction_preserves today s td ih.1 ih.2
  | upd s tid td hr ih => exact updateTransaction_preserves s tid td ih.1 ih.2

/-- C1: after any sequence of `postTransaction` and `updateTransaction` calls
starting from an empty journal, every stored transaction satisfies
`|sum of debit_amounts − sum of credit_amounts| < 0.01`; moreover, on an
entry set whose filtered entries pass steps 2–3 of posting,
`postTransaction` rejects with the balance `ValueError` exactly when
`|total_debits − total_credits| ≥ 0.01`, and otherwise the check passes and
the posting succeeds. -/
theorem C1_balance_invariant :
    (∀ s, Reach s → Balanced01 s)
    ∧ (∀ (today : Date) (s : State) (td : TransactionCreate) (ve : List ValidEntry)
        (totD totC : Rat),
        validateEntries s.accounts td.entries [] = .ok (ve, totD, totC) →
        td.entries ≠ [] → td.description ≠ "" → ¬ ve.length < 2 →
        (((1 : Rat) / 100 ≤ |totD - totC| →
            (createTransaction today s td).2 = .error "Total debits must equal total credits")
          ∧ (|totD - totC| < 1 / 100 →
            (createTransaction today s td).2 = .ok (insertTxn today s td ve).2))) := by
  constructor
  · intro s h
    exact (reach_invariant s h).1
  · intro today s td ve totD totC hval hne hd hlen
    constructor
    · intro htol
      simp only [createTransaction, createTransactionChecked, hval, if_neg hne, if_neg hd,
        if_neg hlen, if_pos htol]
    · intro htol
      have hnotle : ¬ ((1 : Rat) / 100 ≤ |totD - totC|) := not_le.mpr htol
      simp only [createTransaction, createTransactionChecked, hval, if_neg hne, if_neg hd,
        if_neg hlen, if_neg hnotle]

/-- Witness for C1: the spec's unbalanced example (debit Cash 50.00, credit
Sales 40.00) passes steps 2–3 but is rejected by the balance check. -/
theorem C1_balance_invariant_witness :
    (createTransaction day0 twoAccountState saleUnbalanced).2 =
      .error "Total debits must equal total credits" :=
  (C1_balance_invariant.2 day0 twoAccountState saleUnbalanced
    [⟨1, 50, 0⟩, ⟨2, 0, 40⟩] 50 40 (by decide) (by decide) (by decide) (by decide)).1
    (by decide)

/-- Debits-minus-credits over a list of entries is the sum of the per-entry
signed amounts. -/
theorem sumDebit_sub_sumCredit (l : List JournalEntryRow) :
    sumDebit l - sumCredit l =
      (l.map (fun e => e.debit_amount - e.credit_amount)).sum := by
  induction l with
  | nil => simp [sumDebit, sumCredit]
  | cons e rest ih =>
    simp only [sumDebit, sumCredit, List.map_cons, List.sum_cons] at *
    rw [← ih]
    ring

/-- Map-sum distributes over pointwise addition. -/
theorem sum_map_add {α : Type} (l : List α) (f g : α → Rat) :
    (l.map (fun a => f a + g a)).sum = (l.map f).sum + (l.map g).sum := by
  induction l with
  | nil => simp
  | cons a rest ih =>
    simp only [List.map_cons, List.sum_cons, ih]
    ring

/-- Map-sum commutes with pointwise negation. -/
theorem sum_map_neg {α : Type} (l : List α) (f : α → Rat) :
    (l.map (fun a => -(f a))).sum = -((l.map f).sum) := by
  induction l with
  | nil => simp
  | cons a rest ih =>
    simp only [List.map_cons, List.sum_cons, ih]
    ring

/-- When no account in the list carries the id, the indicator sum vanishes. -/
theorem sum_ite_id_zero (accounts : List Account) (aid : Nat) (x : Rat)
    (hnone : ∀ a ∈ accounts, a.id ≠ aid) :
    (accounts.map (fun a => if aid == a.id then x else 0)).sum = 0 := by
  induction accounts with
  | nil => simp
  | cons a rest ih =>
    simp only [List.map_cons, List.sum_cons]
    have ha : a.id ≠ aid := hnone a (List.mem_cons_self a rest)
    rw [if_neg (by simpa using fun h => ha (by omega)), ih
      (fun a' ha' => hnone a' (List.mem_cons_of_mem a ha')), add_zero]

/-- Under distinct account ids, the indicator sum over accounts hits a stored
id exactly once. -/
theorem sum_ite_id_one (accounts : List Account) (aid : Nat) (x : Rat)
    (hnd : (accounts.map (·.id)).Nodup) (hex : ∃ a ∈ accounts, a.id = aid) :
    (accounts.map (fun a => if aid == a.id then x else 0)).sum = x := by
  induction accounts with
  | nil => simp at hex
  | cons a rest ih =>
    simp only [List.map_cons, List.sum_cons]
    rw [List.map_cons, List.nodup_cons] at hnd
    by_cases hh : a.id = aid
    · have hrest : ∀ a' ∈ rest, a'.id ≠ aid := by
        intro a' ha' heq
        exact hnd.1 (by rw [hh, ← heq]; exact List.mem_map_of_mem (·.id) ha')
      rw [if_pos (by simp [hh]), sum_ite_id_zero rest aid x hrest, add_zero]
    · have hex' : ∃ a' ∈ rest, a'.id = aid := by
        rcases hex with ⟨a', ha', heq⟩
        rcases List.mem_cons.mp ha' with rfl | hm
        · exact absurd heq hh
        · exact ⟨a', hm, heq⟩
      rw [if_neg (by simpa using fun h => hh (by omega)), ih hnd.2 hex', zero_add]

/-- Partitioning rows by account: summing per-account signed balances over
accounts with distinct ids recovers the total over all rows, provided every
row's account is present. -/
theorem sum_balances_eq_sum_rows (accounts : List Account) (rows : List JournalEntryRow)
    (hnd : (accounts.map (·.id)).Nodup)
    (hcov : ∀ e ∈ rows, ∃ a ∈ accounts, a.id = e.account_id) :
    (accounts.map (fun a =>
      ((rows.filter (fun e => e.account_id == a.id)).map
        (fun e => e.debit_amount - e.credit_amount)).sum)).sum =
    (rows.map (fun e => e.debit_amount - e.credit_amount)).sum := by
  induction rows with
  | nil => simp
  | cons r rest ih =>
    have hcov' : ∀ e ∈ rest, ∃ a ∈ accounts, a.id = e.account_id :=
      fun e he => hcov e (List.mem_cons_of_mem r he)
    have hstep : ∀ a ∈ accounts,
        ((((r :: rest).filter (fun e => e.account_id == a.id)).map
          (fun e => e.debit_amount - e.credit_amount)).sum) =
        (if r.account_id == a.id then r.debit_amount - r.credit_amount else 0) +
          (((rest.filter (fun e => e.account_id == a.id)).map
            (fun e => e.debit_amount - e.credit_amount)).sum) := by
      intro a _
      rw [List.filter_cons]
      by_cases hm : (r.account_id == a.id) = true
      · rw [if_pos hm, if_pos hm, List.map_cons, List.sum_cons]
      · rw [if_neg hm, if_neg hm, zero_add]
    rw [List.map_congr_left hstep, sum_map_add, ih hcov',
      sum_ite_id_one accounts r.account_id (r.debit_amount - r.credit_amount) hnd
        (hcov r (List.mem_cons_self r rest)),
      List.map_cons, List.sum_cons]

/-- When no transaction in the list carries the id, the indicator sum
vanishes. -/
theorem sum_ite_tid_zero (ts : List TransactionRow) (tid : Nat) (x : Rat)
    (hnone : ∀ t ∈ ts, t.id ≠ tid) :
    (ts.map (fun t => if tid == t.id then x else 0)).sum = 0 := by
  induction ts with
  | nil => simp
  | cons t rest ih =>
    simp only [List.map_cons, List.sum_cons]
    have ht : t.id ≠ tid := hnone t (List.mem_cons_self t rest)
    rw [if_neg (by simpa using fun h => ht (by omega)), ih
      (fun t' ht' => hnone t' (List.mem_cons_of_mem t ht')), add_zero]

/-- Under distinct transaction ids, the indicator sum over transactions hits
a stored id exactly once. -/
theorem sum_ite_tid_one (ts : List TransactionRow) (tid : Nat) (x : Rat)
    (hnd : (ts.map (·.id)).Nodup) (hex : ∃ t ∈ ts, t.id = tid) :
    (ts.map (fun t => if tid == t.id then x else 0)).sum = x := by
  induction ts with
  | nil => simp at hex
  | cons t rest ih =>
    simp only [List.map_cons, List.sum_cons]
    rw [List.map_cons, List.nodup_cons] at hnd
    by_cases hh : t.id = tid
    · have hrest : ∀ t' ∈ rest, t'.id ≠ tid := by
        intro t' ht' heq
        exact hnd.1 (by rw [hh, ← heq]; exact List.mem_map_of_mem (·.id) ht')
      rw [if_pos (by simp [hh]), sum_ite_tid_zero rest tid x hrest, add_zero]
    · have hex' : ∃ t' ∈ rest, t'.id = tid := by
        rcases hex with ⟨t', ht', heq⟩
        rcases List.mem_cons.mp ht' with rfl | hm
        · exact absurd heq hh
        · exact ⟨t', hm, heq⟩
      rw [if_neg (by simpa using fun h => hh (by omega)), ih hnd.2 hex', zero_add]

/-- Partitioning rows by parent transaction: summing per-transaction signed
totals over transactions with distinct ids recovers the total over all rows,
provided every row's transaction is present. -/
theorem sum_by_txn (ts : List TransactionRow) (rows : List JournalEntryRow)
    (hnd : (ts.map (·.id)).Nodup)
    (hcov : ∀ e ∈ rows, ∃ t ∈ ts, t.id = e.transaction_id) :
    (ts.map (fun t =>
      ((rows.filter (fun e => e.transaction_id == t.id)).map
        (fun e => e.debit_amount - e.credit_amount)).sum)).sum =
    (rows.map (fun e => e.debit_amount - e.credit_amount)).sum := by
  induction rows with
  | nil => simp
  | cons r rest ih =>
    have hcov' : ∀ e ∈ rest, ∃ t ∈ ts, t.id = e.transaction_id :=
      fun e he => hcov e (List.mem_cons_of_mem r he)
    have hstep : ∀ t ∈ ts,
        ((((r :: rest).filter (fun e => e.transaction_id == t.id)).map
          (fun e => e.debit_amount - e.credit_amount)).sum) =
        (if r.transaction_id == t.id then r.debit_amount - r.credit_amount else 0) +
          (((rest.filter (fun e => e.transaction_id == t.id)).map
            (fun e => e.debit_amount - e.credit_amount)).sum) := by
      intro t _
      rw [List.filter_cons]
      by_cases hm : (r.transaction_id == t.id) = true
      · rw [if_pos hm, if_pos hm, List.map_cons, List.sum_cons]
      · rw [if_neg hm, if_neg hm, zero_add]
    rw [List.map_congr_left hstep, sum_map_add, ih hcov',
      sum_ite_tid_one ts r.transaction_id (r.debit_amount - r.credit_amount) hnd
        (hcov r (List.mem_cons_self r rest)),
      List.map_cons, List.sum_cons]

/-- A join of one entry against transactions with distinct ids yields the
entry once when a matching dated transaction exists, and nothing otherwise. -/
theorem join_one_entry (ts : List TransactionRow) (x : Nat) (q : TransactionRow → Bool)
    (e : JournalEntryRow) (hnd : (ts.map (·.id)).Nodup) :
    (ts.filter (fun t => t.id == x && q t)).map (fun _ => e) =
      if ts.any (fun t => t.id == x && q t) then [e] else [] := by
  induction ts with
  | nil => rfl
  | cons t rest ih =>
    rw [List.map_cons, List.nodup_cons] at hnd
    rw [List.filter_cons, List.any_cons]
    by_cases hp : (t.id == x && q t) = true
    · rw [if_pos hp, List.map_cons]
      have hx : t.id = x := by
        have hp2 := hp
        simp only [Bool.and_eq_true, beq_iff_eq] at hp2
        exact hp2.1
      have hrest : rest.filter (fun t' => t'.id == x && q t') = [] := by
        rw [List.filter_eq_nil_iff]
        intro t' ht' hq
        have hx' : t'.id = x := by
          simp only [Bool.and_eq_true, beq_iff_eq] at hq
          exact hq.1
        exact hnd.1 (by rw [hx, ← hx']; exact List.mem_map_of_mem (·.id) ht')
      rw [hrest]
      simp [hp]
    · rw [if_neg hp]
      have hp' : (t.id == x && q t) = false := by
        cases hb : (t.id == x && q t)
        · rfl
        · exact absurd hb hp
      rw [hp', Bool.false_or]
      exact ih hnd.2

/-- With distinct transaction ids, the dated join of `get_account_balance`
reduces to a filter keeping the entries of in-range transactions. -/
theorem entryRowsAsOf_eq_filter (s : State) (d : Date)
    (hnd : (s.transactions.map (·.id)).Nodup) :
    entryRowsAsOf s (some d) = s.entries.filter (fun e =>
      s.transactions.any
        (fun t => t.id == e.transaction_id && Date.leb t.transaction_date d)) := by
  show s.entries.flatMap _ = _
  induction s.entries with
  | nil => rfl
  | cons e rest ih =>
    rw [List.flatMap_cons, ih, List.filter_cons,
      join_one_entry s.transactions e.transaction_id
        (fun t => Date.leb t.transaction_date d) e hnd]
    by_cases ha : s.transactions.any
        (fun t => t.id == e.transaction_id && Date.leb t.transaction_date d) = true
    · rw [if_pos ha, if_pos ha]
      rfl
    · rw [if_neg ha, if_neg ha]
      rfl

/-- Under distinct transaction ids, the dated rows of one stored transaction
are all of its entries when it is in range and none otherwise. -/
theorem rows_filter_txn (s : State) (d : Date) (t : TransactionRow)
    (hnd : (s.transactions.map (·.id)).Nodup) (ht : t ∈ s.transactions) :
    (entryRowsAsOf s (some d)).filter (fun e => e.transaction_id == t.id) =
      if Date.leb t.transaction_date d then txnEntries s t.id else [] := by
  rw [entryRowsAsOf_eq_filter s d hnd, List.filter_filter]
  by_cases hle : Date.leb t.transaction_date d = true
  · rw [if_pos hle]
    unfold txnEntries
    apply List.filter_congr
    intro e he
    by_cases hx : e.transaction_id = t.id
    · have h1 : (e.transaction_id == t.id) = true := by simp [hx]
      have hany : s.transactions.any
          (fun t' => t'.id == e.transaction_id && Date.leb t'.transaction_date d) = true := by
        rw [List.any_eq_true]
        refine ⟨t, ht, ?_⟩
        simp [hx, hle]
      rw [h1, hany]
      rfl
    · simp [hx]
  · rw [if_neg hle, List.filter_eq_nil_iff]
    intro e he hcontra
    simp only [Bool.and_eq_true, beq_iff_eq, List.any_eq_true] at hcontra
    obtain ⟨het, t', ht', het', hq2⟩ := hcontra
    have : t' = t := List.inj_on_of_nodup_map hnd ht' ht (by rw [het']; exact het)
    subst this
    exact hle hq2

/-- Rows produced by the dated join are stored journal entries. -/
theorem mem_entryRowsAsOf (s : State) (asOf : Option Date) :
    ∀ e ∈ entryRowsAsOf s asOf, e ∈ s.entries := by
  intro e he
  cases asOf with
  | none => exact he
  | some d =>
    unfold entryRowsAsOf at he
    obtain ⟨e', he', hm⟩ := List.mem_flatMap.mp he
    obtain ⟨-, -, heq⟩ := List.mem_map.mp hm
    rw [← heq]
    exact he'

/-- If every stored transaction balances exactly, the signed total over the
dated rows is zero. -/
theorem sum_rows_zero (s : State) (asOf : Option Date)
    (hbal : BalancedExact s) (hndt : (s.transactions.map (·.id)).Nodup)
    (hcovt : ∀ e ∈ s.entries, ∃ t ∈ s.transactions, t.id = e.transaction_id) :
    ((entryRowsAsOf s asOf).map (fun e => e.debit_amount - e.credit_amount)).sum = 0 := by
  have hcovrows : ∀ e ∈ entryRowsAsOf s asOf, ∃ t ∈ s.transactions, t.id = e.transaction_id :=
    fun e he => hcovt e (mem_entryRowsAsOf s asOf e he)
  rw [← sum_by_txn s.transactions (entryRowsAsOf s asOf) hndt hcovrows]
  apply List.sum_eq_zero
  intro x hx
  obtain ⟨t, ht, rfl⟩ := List.mem_map.mp hx
  cases asOf with
  | none =>
    have h0 := hbal t ht
    have hsub := sumDebit_sub_sumCredit (txnEntries s t.id)
    show ((txnEntries s t.id).map (fun e => e.debit_amount - e.credit_amount)).sum = 0
    rw [← hsub, h0, sub_self]
  | some d =>
    rw [rows_filter_txn s d t hndt ht]
    by_cases hle : Date.leb t.transaction_date d = true
    · rw [if_pos hle]
      have h0 := hbal t ht
      rw [← sumDebit_sub_sumCredit, h0, sub_self]
    · rw [if_neg hle]
      simp

/-- Accounts split by their type: the five per-type sums recover the total. -/
theorem sum_by_type (accounts : List Account) (f : Account → Rat) :
    ((accounts.filter (fun a => decide (a.type = AccountType.asset))).map f).sum
    + ((accounts.filter (fun a => decide (a.type = AccountType.liability))).map f).sum
    + ((accounts.filter (fun a => decide (a.type = AccountType.equity))).map f).sum
    + ((accounts.filter (fun a => decide (a.type = AccountType.income))).map f).sum
    + ((accounts.filter (fun a => decide (a.type = AccountType.expense))).map f).sum
    = (accounts.map f).sum := by
  induction accounts with
  | nil => simp
  | cons a rest ih =>
    rw [List.map_cons, List.sum_cons, ← ih]
    cases htype : a.type <;> simp [List.filter_cons, htype] <;> ring

/-- Folding net income into equity only when nonzero equals always adding it. -/
theorem ite_fold_net_income (te0 ni : Rat) : (if ni = 0 then te0 else te0 + ni) = te0 + ni := by
  by_cases h : ni = 0
  · rw [if_pos h, h, add_zero]
  · rw [if_neg h]

/-- C5: whenever every stored transaction's entries balance exactly (and the
store is referentially intact: distinct transaction and account ids, every
entry pointing at a stored transaction and account), the balance sheet for
any `as_of` (or none) satisfies
`total_assets = total_liabilities_and_equity`, net income having been folded
into equity. -/
theorem C5_balance_sheet_identity (s : State) (asOf : Option Date)
    (hbal : BalancedExact s)
    (hndt : (s.transactions.map (·.id)).Nodup)
    (hnda : (s.accounts.map (·.id)).Nodup)
    (hcovt : ∀ e ∈ s.entries, ∃ t ∈ s.transactions, t.id = e.transaction_id)
    (hcova : ∀ e ∈ s.entries, ∃ a ∈ s.accounts, a.id = e.account_id) :
    (getBalanceSheet s asOf).total_assets =
      (getBalanceSheet s asOf).total_liabilities_and_equity := by
  have hz : ((s.accounts.map (fun a => getAccountBalance s a.id asOf))).sum = 0 := by
    have hpt : ∀ a ∈ s.accounts, getAccountBalance s a.id asOf =
        (((entryRowsAsOf s asOf).filter (fun e => e.account_id == a.id)).map
          (fun e => e.debit_amount - e.credit_amount)).sum := by
      intro a _
      show sumDebit ((entryRowsAsOf s asOf).filter (fun e => e.account_id == a.id)) -
          sumCredit ((entryRowsAsOf s asOf).filter (fun e => e.account_id == a.id)) = _
      exact sumDebit_sub_sumCredit _
    rw [List.map_congr_left hpt,
      sum_balances_eq_sum_rows s.accounts (entryRowsAsOf s asOf) hnda
        (fun e he => hcova e (mem_entryRowsAsOf s asOf e he))]
    exact sum_rows_zero s asOf hbal hndt hcovt
  have h5 := sum_by_type s.accounts (fun a => getAccountBalance s a.id asOf)
  show ((s.accounts.filter (fun a => decide (a.type = AccountType.asset))).map
      (fun a => getAccountBalance s a.id asOf)).sum =
    ((s.accounts.filter (fun a => decide (a.type = AccountType.liability))).map
      (fun a => -(getAccountBalance s a.id asOf))).sum +
    (if (((s.accounts.filter (fun a => decide (a.type = AccountType.income))).map
          (fun a => -(getAccountBalance s a.id asOf))).sum -
        ((s.accounts.filter (fun a => decide (a.type = AccountType.expense))).map
          (fun a => getAccountBalance s a.id asOf)).sum) = 0
     then ((s.accounts.filter (fun a => decide (a.type = AccountType.equity))).map
          (fun a => -(getAccountBalance s a.id asOf))).sum
     else ((s.accounts.filter (fun a => decide (a.type = AccountType.equity))).map
          (fun a => -(getAccountBalance s a.id asOf))).sum +
       (((s.accounts.filter (fun a => decide (a.type = AccountType.income))).map
          (fun a => -(getAccountBalance s a.id asOf))).sum -
        ((s.accounts.filter (fun a => decide (a.type = AccountType.expense))).map
          (fun a => getAccountBalance s a.id asOf)).sum))
  rw [ite_fold_net_income,
    sum_map_neg (s.accounts.filter (fun a => decide (a.type = AccountType.liability)))
      (fun a => getAccountBalance s a.id asOf),
    sum_map_neg (s.accounts.filter (fun a => decide (a.type = AccountType.equity)))
      (fun a => getAccountBalance s a.id asOf),
    sum_map_neg (s.accounts.filter (fun a => decide (a.type = AccountType.income)))
      (fun a => getAccountBalance s a.id asOf)]
  linarith [hz, h5]

/-- Witness for C5: on a ledger with two balanced transactions over all five
account types, the balance sheet balances. -/
theorem C5_balance_sheet_identity_witness :
    (getBalanceSheet stateC5 none).total_assets =
      (getBalanceSheet stateC5 none).total_liabilities_and_equity :=
  C5_balance_sheet_identity stateC5 none (by unfold BalancedExact; decide) (by decide)
    (by decide) (by decide) (by decide)

/-- The code point of a decimal digit character. -/
theorem digitChar_toNat (d : Nat) (h : d ≤ 9) : (digitChar d).toNat = 48 + d := by
  interval_cases d <;> rfl

/-- A decimal digit character is never the dash. -/
theorem digitChar_ne_dash (d : Nat) : digitChar d ≠ '-' := by
  unfold digitChar
  split <;> decide

/-- For `n ≤ 999`, the zero-padded formatting is the three base-10 digits. -/
theorem pad3_eq (n : Nat) (h : n ≤ 999) :
    pad3 n = [digitChar (n / 100), digitChar (n / 10 % 10), digitChar (n % 10)] := by
  unfold pad3
  split
  next h10 =>
    have h1 : n / 100 = 0 := by omega
    have h2 : n / 10 % 10 = 0 := by omega
    have h3 : n % 10 = n := by omega
    rw [h1, h2, h3]
    rfl
  next h10 =>
    split
    next h100 =>
      have h1 : n / 100 = 0 := by omega
      have h2 : n / 10 % 10 = n / 10 := by omega
      rw [h1, h2]
      rfl
    next h100 =>
      rw [if_pos (by omega)]

/-- The value of a decimal digit character. -/
theorem digitVal_digitChar (x : Nat) (h : x ≤ 9) : digitVal (digitChar x) = some x := by
  interval_cases x <;> rfl

/-- Parsing the zero-padded three-digit code suffix recovers the number. -/
theorem parse_pad3 (k : Nat) (h : k ≤ 999) : parseIntChars (pad3 k) = some k := by
  rw [pad3_eq k h]
  unfold parseIntChars digitsToNatAux
  rw [digitVal_digitChar (k / 100) (by omega)]
  unfold digitsToNatAux
  rw [digitVal_digitChar (k / 10 % 10) (by omega)]
  unfold digitsToNatAux
  rw [digitVal_digitChar (k % 10) (by omega)]
  unfold digitsToNatAux
  congr 1
  omega

/-- Lexicographic comparison of two three-digit strings is numeric
comparison of their values. -/
theorem lexLtCh_digits3 (a b c d e f : Nat)
    (ha : a ≤ 9) (hb : b ≤ 9) (hc : c ≤ 9) (hd : d ≤ 9) (he : e ≤ 9) (hf : f ≤ 9)
    (h : 100 * a + 10 * b + c < 100 * d + 10 * e + f) :
    lexLtCh [digitChar a, digitChar b, digitChar c]
      [digitChar d, digitChar e, digitChar f] = true := by
  simp only [lexLtCh, digitChar_toNat a ha, digitChar_toNat b hb, digitChar_toNat c hc,
    digitChar_toNat d hd, digitChar_toNat e he, digitChar_toNat f hf]
  split_ifs <;> first | rfl | omega

/-- Lexicographic order on padded code suffixes below 1000 is numeric. -/
theorem lexLtCh_pad3 (i j : Nat) (hij : i < j) (hj : j ≤ 999) :
    lexLtCh (pad3 i) (pad3 j) = true := by
  rw [pad3_eq i (by omega), pad3_eq j hj]
  apply lexLtCh_digits3 <;> omega

/-- Lexicographic strictness is irreflexive. -/
theorem lexLtCh_irrefl (l : List Char) : lexLtCh l l = false := by
  induction l with
  | nil => rfl
  | cons c cs ih =>
    simp only [lexLtCh, lt_irrefl, if_false, ih]

/-- Lexicographic strictness is asymmetric. -/
theorem lexLtCh_asymm (l₁ : List Char) : ∀ l₂, lexLtCh l₁ l₂ = true → lexLtCh l₂ l₁ = false := by
  induction l₁ with
  | nil =>
    intro l₂ h
    cases l₂ with
    | nil => simp [lexLtCh] at h
    | cons b bs => rfl
  | cons a as ih =>
    intro l₂ h
    cases l₂ with
    | nil => simp [lexLtCh] at h
    | cons b bs =>
      simp only [lexLtCh] at h ⊢
      by_cases h1 : a.toNat < b.toNat
      · rw [if_neg (by omega), if_pos h1]
      · rw [if_neg h1] at h
        by_cases h2 : b.toNat < a.toNat
        · rw [if_pos h2] at h
          cases h
        · rw [if_neg h2] at h
          rw [if_neg h2, if_neg h1]
          exact ih bs h

/-- The code suffix comparison lifts to full account codes of one type. -/
theorem strLtB_accountCode (t : AccountType) (i j : Nat) (hij : i < j) (hj : j ≤ 999) :
    strLtB (accountCode t i) (accountCode t j) = true := by
  show lexLtCh (pfxChar t :: '-' :: pad3 i) (pfxChar t :: '-' :: pad3 j) = true
  simp only [lexLtCh, lt_irrefl, if_false]
  exact lexLtCh_pad3 i j hij hj

/-- The lexicographic maximum is an element of its list. -/
theorem lexMaxStr_mem (l : List String) : ∀ m, lexMaxStr l = some m → m ∈ l := by
  induction l with
  | nil => intro m h; cases h
  | cons s rest ih =>
    intro m h
    unfold lexMaxStr at h
    cases hr : lexMaxStr rest with
    | none =>
      rw [hr] at h
      cases h
      exact List.mem_cons_self s rest
    | some m' =>
      simp only [hr] at h
      by_cases hlt : strLtB s m' = true
      · rw [if_pos hlt] at h
        cases h
        exact List.mem_cons_of_mem s (ih _ hr)
      · rw [if_neg hlt] at h
        cases h
        exact List.mem_cons_self s rest

/-- A strict upper bound element of the list is its lexicographic maximum. -/
theorem lexMaxStr_eq_max (l : List String) :
    ∀ m, m ∈ l → (∀ x ∈ l, x = m ∨ strLtB x m = true) → lexMaxStr l = some m := by
  induction l with
  | nil => intro m hm; cases hm
  | cons s rest ih =>
    intro m hm hmax
    unfold lexMaxStr
    cases hr : lexMaxStr rest with
    | none =>
      have hrest : rest = [] := by
        cases rest with
        | nil => rfl
        | cons x xs =>
          unfold lexMaxStr at hr
          cases hx : lexMaxStr xs with
          | none => rw [hx] at hr; cases hr
          | some mm =>
            simp only [hx] at hr
            split at hr <;> cases hr
      subst hrest
      rcases List.mem_cons.mp hm with rfl | hm'
      · rfl
      · cases hm'
    | some m' =>
      have hm'mem := lexMaxStr_mem rest m' hr
      show (if strLtB s m' = true then some m' else some s) = some m
      rcases List.mem_cons.mp hm with rfl | hm'
      · rcases hmax m' (List.mem_cons_of_mem m hm'mem) with heq | hlt
        · subst heq
          split <;> rfl
        · have h2 : strLtB m m' = false := lexLtCh_asymm m'.data m.data hlt
          rw [if_neg (by simp [h2])]
      · have hmm : lexMaxStr rest = some m :=
          ih m hm' (fun x hx => hmax x (List.mem_cons_of_mem s hx))
        rw [hr] at hmm
        injection hmm with hmm
        subst hmm
        rcases hmax s (List.mem_cons_self s rest) with rfl | hlt
        · split <;> rfl
        · rw [if_pos hlt]

/-- No type letter is the dash. -/
theorem pfxChar_ne_dash (t : AccountType) : pfxChar t ≠ '-' := by
  cases t <;> decide

/-- The five type letters are pairwise distinct. -/
theorem pfxChar_inj (t u : AccountType) (h : pfxChar t = pfxChar u) : t = u := by
  cases t <;> cases u <;> first | rfl | (exact absurd h (by decide))

/-- The padded suffix of an in-range code contains no dash. -/
theorem pad3_no_dash (n : Nat) (h : n ≤ 999) : ∀ c ∈ pad3 n, c ≠ '-' := by
  rw [pad3_eq n h]
  intro c hc
  rcases List.mem_cons.mp hc with rfl | hc
  · exact digitChar_ne_dash _
  · rcases List.mem_cons.mp hc with rfl | hc
    · exact digitChar_ne_dash _
    · rcases List.mem_cons.mp hc with rfl | hc
      · exact digitChar_ne_dash _
      · cases hc

/-- Splitting a dash-free suffix at dashes returns it whole. -/
theorem splitChars_no_dash (ds : List Char) (hds : ∀ c ∈ ds, c ≠ '-') :
    splitChars '-' ds = [ds] := by
  induction ds with
  | nil => rfl
  | cons c cs ih =>
    have hc : c ≠ '-' := hds c (List.mem_cons_self c cs)
    have ih' := ih (fun c' hc' => hds c' (List.mem_cons_of_mem c hc'))
    unfold splitChars
    rw [ih']
    rw [if_neg (by simpa using hc)]

/-- Python `split('-')` on a generated code produces the letter and the
suffix. -/
theorem splitChars_code (p : Char) (ds : List Char) (hp : p ≠ '-')
    (hds : ∀ c ∈ ds, c ≠ '-') :
    splitChars '-' (p :: '-' :: ds) = [[p], ds] := by
  unfold splitChars
  rw [if_neg (by simpa using hp)]
  show (match splitChars '-' ('-' :: ds) with
    | [] => [[p]]
    | h :: t => (p :: h) :: t) = [[p], ds]
  unfold splitChars
  rw [if_pos (by decide)]
  rw [splitChars_no_dash ds hds]

/-- The max-plus-one step on an in-range generated code. -/
theorem nextCodeNumber_accountCode (t : AccountType) (k : Nat) (hk : k ≤ 999) :
    nextCodeNumber (accountCode t k).data = k + 1 := by
  show nextCodeNumber (pfxChar t :: '-' :: pad3 k) = k + 1
  unfold nextCodeNumber
  rw [splitChars_code (pfxChar t) (pad3 k) (pfxChar_ne_dash t) (pad3_no_dash k hk)]
  show (match some (pad3 k) with
    | none => 1
    | some piece => match parseIntChars piece with | none => 1 | some k => k + 1) = k + 1
  show (match parseIntChars (pad3 k) with | none => 1 | some k => k + 1) = k + 1
  rw [parse_pad3 k hk]

/-- When every stored code has the generated `letter-digits` shape, the
`LIKE 'P-%'` filter of `_generate_account_code` selects exactly the accounts
of that type. -/
theorem filter_leadsWith_eq_filter_type (accounts : List Account) (t : AccountType)
    (hform : ∀ a ∈ accounts, ∃ n, a.code = accountCode a.type n) :
    accounts.filter (fun a => leadsWith [pfxChar t, '-'] a.code.data) =
      accounts.filter (fun a => decide (a.type = t)) := by
  apply List.filter_congr
  intro a ha
  obtain ⟨n, hn⟩ := hform a ha
  rw [hn]
  show leadsWith [pfxChar t, '-'] (pfxChar a.type :: '-' :: pad3 n) = decide (a.type = t)
  by_cases hts : a.type = t
  · simp [leadsWith, hts]
  · have hne : pfxChar t ≠ pfxChar a.type := fun h => hts (pfxChar_inj a.type t h.symm)
    simp [leadsWith, hts, hne]

/-- Distinct in-range numbers give distinct codes of one type. -/
theorem accountCode_inj (t : AccountType) (m n : Nat) (hm : m ≤ 999) (hn : n ≤ 999)
    (h : accountCode t m = accountCode t n) : m = n := by
  have hdata : accountCodeChars t m = accountCodeChars t n := congrArg String.data h
  unfold accountCodeChars at hdata
  rw [pad3_eq m hm, pad3_eq n hn] at hdata
  simp only [List.cons.injEq] at hdata
  obtain ⟨-, -, h2, h1, h0, -⟩ := hdata
  have e2 := congrArg Char.toNat h2
  have e1 := congrArg Char.toNat h1
  have e0 := congrArg Char.toNat h0
  rw [digitChar_toNat (m / 100) (by omega), digitChar_toNat (n / 100) (by omega)] at e2
  rw [digitChar_toNat (m / 10 % 10) (by omega), digitChar_toNat (n / 10 % 10) (by omega)] at e1
  rw [digitChar_toNat (m % 10) (by omega), digitChar_toNat (n % 10) (by omega)] at e0
  omega

/-- Codes of different types differ (their first letters differ). -/
theorem accountCode_type_ne (t u : AccountType) (m n : Nat) (htu : t ≠ u) :
    accountCode t m ≠ accountCode u n := by
  intro h
  have hdata : accountCodeChars t m = accountCodeChars u n := congrArg String.data h
  unfold accountCodeChars at hdata
  simp only [List.cons.injEq] at hdata
  exact htu (pfxChar_inj t u hdata.1)

/-- A three-digit-padded code is never the four-digit code `P-1000`: the
character lists have different lengths. -/
theorem accountCode_ne_1000 (t u : AccountType) (m : Nat) (hm : m ≤ 999) :
    accountCode t m ≠ accountCode u 1000 := by
  intro h
  have hlen : (accountCodeChars t m).length = (accountCodeChars u 1000).length :=
    congrArg List.length (congrArg String.data h)
  unfold accountCodeChars at hlen
  rw [pad3_eq m hm] at hlen
  have h1000 : (pad3 1000).length = 4 := rfl
  simp only [List.length_cons, List.length_nil, h1000] at hlen
  omega

/-- When the generated code does not collide with a stored one, the commit
succeeds and appends the new account row. -/
theorem createAccountCore_ok (s : State) (d : AccountCreate)
    (h : s.accounts.any
      (fun a => a.code == generateAccountCode s.accounts d.type) = false) :
    createAccountCore s d =
      ({ s with
          accounts := s.accounts ++ [⟨s.nextId, d.category_id, d.name, d.type,
            generateAccountCode s.accounts d.type, d.description, d.is_active⟩],
          nextId := s.nextId + 1 },
        .ok ⟨s.nextId, d.category_id, d.name, d.type,
          generateAccountCode s.accounts d.type, d.description, d.is_active⟩) := by
  unfold createAccountCore
  rw [h]
  rfl

/-- When the generated code equals a stored account's code, the commit hits
the UNIQUE constraint: nothing is persisted and the error is raised. -/
theorem createAccountCore_err (s : State) (d : AccountCreate)
    (h : s.accounts.any
      (fun a => a.code == generateAccountCode s.accounts d.type) = true) :
    createAccountCore s d =
      (s, .error "IntegrityError: UNIQUE constraint failed: accounts.code") := by
  unfold createAccountCore
  rw [h]
  rfl

/-- The generation step of `_generate_account_code` on a state whose codes of
the requested type are exactly `P-001 … P-k` (with the `LIKE` filter already
reduced to the type filter): the next code is `P-(k+1)`. -/
theorem generateAccountCode_step (accounts : List Account) (t : AccountType) (k : Nat)
    (hk : k ≤ 999)
    (hform : ∀ a ∈ accounts, ∃ n, a.code = accountCode a.type n)
    (htc : (accounts.filter (fun a => decide (a.type = t))).map (·.code) =
      (List.range k).map (fun i => accountCode t (i + 1))) :
    generateAccountCode accounts t = accountCode t (k + 1) := by
  unfold generateAccountCode
  show (match lexMaxStr ((accounts.filter
      (fun a => leadsWith [pfxChar t, '-'] a.code.data)).map (·.code)) with
    | none => ({ data := pfxChar t :: '-' :: pad3 1 } : String)
    | some top => { data := pfxChar t :: '-' :: pad3 (nextCodeNumber top.data) }) =
    accountCode t (k + 1)
  rw [filter_leadsWith_eq_filter_type accounts t hform, htc]
  cases k with
  | zero => rfl
  | succ k' =>
    have hmem : accountCode t (k' + 1) ∈
        (List.range (k' + 1)).map (fun i => accountCode t (i + 1)) := by
      exact List.mem_map_of_mem _ (List.mem_range.mpr (Nat.lt_succ_self k'))
    have hmax : ∀ x ∈ (List.range (k' + 1)).map (fun i => accountCode t (i + 1)),
        x = accountCode t (k' + 1) ∨ strLtB x (accountCode t (k' + 1)) = true := by
      intro x hx
      obtain ⟨i, hi, rfl⟩ := List.mem_map.mp hx
      rw [List.mem_range] at hi
      by_cases hik : i + 1 = k' + 1
      · left
        rw [hik]
      · right
        exact strLtB_accountCode t (i + 1) (k' + 1) (by omega) hk
    rw [lexMaxStr_eq_max _ _ hmem hmax]
    show (⟨pfxChar t :: '-' :: pad3 (nextCodeNumber (accountCode t (k' + 1)).data)⟩ : String) =
      accountCode t (k' + 1 + 1)
    rw [nextCodeNumber_accountCode t (k' + 1) hk]
    rfl

/-- Codes characterized per type have the generated shape. -/
theorem code_form_of_typeCodes (s : State) (f : AccountType → Nat)
    (hf : ∀ t, typeCodes s t = (List.range (f t)).map (fun i => accountCode t (i + 1))) :
    ∀ a ∈ s.accounts, ∃ i, i < f a.type ∧ a.code = accountCode a.type (i + 1) := by
  intro a ha
  have hmem : a.code ∈ typeCodes s a.type := by
    unfold typeCodes
    exact List.mem_map_of_mem _ (List.mem_filter.mpr ⟨ha, by simp⟩)
  rw [hf a.type] at hmem
  obtain ⟨i, hi, heq⟩ := List.mem_map.mp hmem
  exact ⟨i, List.mem_range.mp hi, heq.symm⟩

/-- How a creation changes the per-type count of a request list. -/
theorem countType_cons (d : AccountCreate) (rest : List AccountCreate) (t : AccountType) :
    countType (d :: rest) t = (if d.type = t then 1 else 0) + countType rest t := by
  unfold countType
  rw [List.filter_cons]
  by_cases h : d.type = t
  · rw [if_pos (by simp [h]), if_pos h]
    simp [Nat.add_comm]
  · rw [if_neg (by simp [h]), if_neg h]
    simp

/-- Master induction: running a category-free creation sequence on a state
whose codes of each type are exactly `P-001 … P-(f t)` extends each type's
code list sequentially and keeps all codes distinct, as long as no type
exceeds 999. -/
theorem runCreates_codes (ops : List AccountCreate) : ∀ (s : State) (f : AccountType → Nat),
    (∀ d ∈ ops, d.category_id = none) →
    (∀ t, typeCodes s t = (List.range (f t)).map (fun i => accountCode t (i + 1))) →
    ((s.accounts.map (·.code)).Nodup) →
    (∀ t, f t + countType ops t ≤ 999) →
    (∀ t, typeCodes (runCreates s ops) t =
      (List.range (f t + countType ops t)).map (fun i => accountCode t (i + 1)))
    ∧ ((runCreates s ops).accounts.map (·.code)).Nodup := by
  induction ops with
  | nil =>
    intro s f hcat hf hnd hb
    constructor
    · intro t
      simpa [runCreates, countType] using hf t
    · simpa [runCreates] using hnd
  | cons d rest ih =>
    intro s f hcat hf hnd hb
    have hdnone : d.category_id = none := hcat d (List.mem_cons_self d rest)
    have hstep : runCreates s (d :: rest) = runCreates (createAccountCore s d).1 rest := by
      unfold runCreates
      rw [List.foldl_cons]
      have : (createAccount s d).1 = (createAccountCore s d).1 := by
        unfold createAccount
        rw [hdnone]
        rfl
      rw [this]
    have hform : ∀ a ∈ s.accounts, ∃ n, a.code = accountCode a.type n := by
      intro a ha
      obtain ⟨i, -, heq⟩ := code_form_of_typeCodes s f hf a ha
      exact ⟨i + 1, heq⟩
    have hcnt1 : 1 ≤ countType (d :: rest) d.type := by
      rw [countType_cons, if_pos rfl]
      omega
    have hk999 : f d.type ≤ 998 := by
      have := hb d.type
      omega
    have hgen : generateAccountCode s.accounts d.type = accountCode d.type (f d.type + 1) :=
      generateAccountCode_step s.accounts d.type (f d.type) (by omega) hform (hf d.type)
    have hnew : ∀ a ∈ s.accounts, a.code ≠ generateAccountCode s.accounts d.type := by
      intro a ha
      rw [hgen]
      obtain ⟨i, hi, hcode⟩ := code_form_of_typeCodes s f hf a ha
      rw [hcode]
      by_cases hat : a.type = d.type
      · rw [hat]
        intro hcontra
        have hfd : i < f d.type := by rw [← hat]; exact hi
        have := accountCode_inj d.type (i + 1) (f d.type + 1) (by omega) (by omega) hcontra
        omega
      · exact accountCode_type_ne a.type d.type (i + 1) (f d.type + 1) hat
    have hany : s.accounts.any
        (fun a => a.code == generateAccountCode s.accounts d.type) = false := by
      rw [Bool.eq_false_iff]
      intro hcontra
      rw [List.any_eq_true] at hcontra
      obtain ⟨a, ha, hbeq⟩ := hcontra
      simp only [beq_iff_eq] at hbeq
      exact hnew a ha hbeq
    have hacc : (createAccountCore s d).1.accounts =
        s.accounts ++ [⟨s.nextId, d.category_id, d.name, d.type,
          generateAccountCode s.accounts d.type, d.description, d.is_active⟩] := by
      rw [createAccountCore_ok s d hany]
    have htc' : ∀ t, typeCodes (createAccountCore s d).1 t =
        (List.range (if t = d.type then f t + 1 else f t)).map
          (fun i => accountCode t (i + 1)) := by
      intro t
      unfold typeCodes
      rw [hacc, List.filter_append, List.map_append]
      by_cases ht : t = d.type
      · subst ht
        rw [List.filter_cons, if_pos (by simp)]
        show typeCodes s d.type ++ [generateAccountCode s.accounts d.type] = _
        rw [hf d.type, hgen, if_pos rfl, List.range_succ, List.map_append]
        rfl
      · rw [List.filter_cons, if_neg (by simp [ht]; exact fun h => ht h.symm)]
        show typeCodes s t ++ [] = _
        rw [List.append_nil, hf t, if_neg ht]
    have hnd' : ((createAccountCore s d).1.accounts.map (·.code)).Nodup := by
      rw [hacc, List.map_append]
      apply List.Nodup.append hnd (by simp)
      intro x hx hx2
      simp only [List.map_cons, List.map_nil, List.mem_singleton] at hx2
      obtain ⟨a, ha, hax⟩ := List.mem_map.mp hx
      obtain ⟨i, hi, hcode⟩ := code_form_of_typeCodes s f hf a ha
      rw [← hax, hcode] at hx2
      rw [hgen] at hx2
      by_cases hat : a.type = d.type
      · rw [hat] at hx2
        have hfd : i < f d.type := by rw [← hat]; exact hi
        have := accountCode_inj d.type (i + 1) (f d.type + 1) (by omega) (by omega) hx2
        omega
      · exact accountCode_type_ne a.type d.type (i + 1) (f d.type + 1) hat hx2
    have hbnd' : ∀ t, (if t = d.type then f t + 1 else f t) + countType rest t ≤ 999 := by
      intro t
      have := hb t
      rw [countType_cons] at this
      by_cases ht : t = d.type
      · rw [if_pos ht]
        rw [ht] at this ⊢
        rw [if_pos rfl] at this
        omega
      · rw [if_neg ht]
        rw [if_neg (fun h => ht h.symm)] at this
        omega
    obtain ⟨ihc, ihn⟩ := ih (createAccountCore s d).1
      (fun u => if u = d.type then f u + 1 else f u)
      (fun d' hd' => hcat d' (List.mem_cons_of_mem d hd')) htc' hnd' hbnd'
    rw [hstep]
    refine ⟨?_, ihn⟩
    intro t
    rw [ihc t]
    have harg : (if t = d.type then f t + 1 else f t) + countType rest t =
        f t + countType (d :: rest) t := by
      rw [countType_cons]
      by_cases ht : t = d.type
      · rw [if_pos ht, if_pos (by rw [ht]), ]
        omega
      · rw [if_neg ht, if_neg (fun h => ht h.symm)]
        omega
    rw [harg]

/-- C4 (amended): starting from a chart with no accounts, any sequence of
`createAccount` calls (no category set) in which each type is requested at
most 999 times assigns, per type, exactly the codes `P-001, P-002, …` in
creation order — strictly increasing with no collision across interleaved
types. -/
theorem C4_account_code_sequencing (ops : List AccountCreate) (s0 : State)
    (hacc : s0.accounts = [])
    (hcat : ∀ d ∈ ops, d.category_id = none)
    (hcount : ∀ t, countType ops t ≤ 999) :
    (∀ t, typeCodes (runCreates s0 ops) t =
      (List.range (countType ops t)).map (fun i => accountCode t (i + 1)))
    ∧ ((runCreates s0 ops).accounts.map (·.code)).Nodup := by
  have hf0 : ∀ t, typeCodes s0 t = (List.range 0).map (fun i => accountCode t (i + 1)) := by
    intro t
    unfold typeCodes
    rw [hacc]
    rfl
  have hnd0 : (s0.accounts.map (·.code)).Nodup := by
    rw [hacc]
    exact List.nodup_nil
  obtain ⟨h1, h2⟩ := runCreates_codes ops s0 (fun _ => 0) hcat hf0 hnd0
    (fun t => by simpa using hcount t)
  exact ⟨fun t => by simpa using h1 t, h2⟩

/-- Witness for C4's amended statement: the interleaved sequence asset,
liability, asset yields codes A-001, L-001, A-002. -/
theorem C4_account_code_sequencing_witness :
    typeCodes (runCreates emptyState opsC4) AccountType.asset = ["A-001", "A-002"]
    ∧ typeCodes (runCreates emptyState opsC4) AccountType.liability = ["L-001"] := by
  have h := C4_account_code_sequencing opsC4 emptyState rfl (by decide)
    (by intro t; cases t <;> decide)
  constructor
  · rw [h.1 AccountType.asset]
    decide
  · rw [h.1 AccountType.liability]
    decide

/-- Creation requests of a single payload count once per copy for its type. -/
theorem countType_replicate (n : Nat) (d : AccountCreate) (t : AccountType) :
    countType (List.replicate n d) t = if d.type = t then n else 0 := by
  induction n with
  | zero => simp [countType]
  | succ m ih =>
    rw [List.replicate_succ, countType_cons, ih]
    by_cases h : d.type = t
    · rw [if_pos h, if_pos h, if_pos h]
      omega
    · rw [if_neg h, if_neg h, if_neg h]

/-- Running a creation sequence splits across list append. -/
theorem runCreates_append (s : State) (l1 l2 : List AccountCreate) :
    runCreates s (l1 ++ l2) = runCreates (runCreates s l1) l2 := by
  unfold runCreates
  exact List.foldl_append _ _ _ _

/-- Counterexample for C4 as stated: the sequence breaks at the 1001st
account of a type. After `A-999` the 1000th asset account is coded `A-1000`,
but from then on the lexicographically greatest stored code is still `A-999`
(as strings, `"A-999" > "A-1000"`), so the 1001st creation regenerates
`A-1000`; that code already exists, the UNIQUE constraint on `accounts.code`
fires at commit, and the creation raises `IntegrityError` with the state
untouched instead of assigning `A-1001`. -/
theorem C4_account_code_sequencing_counterexample :
    createAccount (runCreates emptyState (List.replicate 1000
        (⟨none, "a", AccountType.asset, none, true⟩ : AccountCreate)))
      (⟨none, "a", AccountType.asset, none, true⟩ : AccountCreate) =
    (runCreates emptyState (List.replicate 1000
        (⟨none, "a", AccountType.asset, none, true⟩ : AccountCreate)),
     Except.error "IntegrityError: UNIQUE constraint failed: accounts.code") := by
  set p : AccountCreate := ⟨none, "a", AccountType.asset, none, true⟩ with hp
  have hf0 : ∀ t, typeCodes emptyState t =
      (List.range 0).map (fun i => accountCode t (i + 1)) := by
    intro t
    rfl
  obtain ⟨hchar, -⟩ := runCreates_codes (List.replicate 999 p) emptyState (fun _ => 0)
    (fun d hd => by rw [List.eq_of_mem_replicate hd])
    hf0 List.nodup_nil
    (by
      intro t
      rw [countType_replicate]
      by_cases h : p.type = t
      · rw [if_pos h]
      · rw [if_neg h]
        show (0 : Nat) + 0 ≤ 999
        omega)
  obtain ⟨s999, hs999⟩ :
      ∃ s, runCreates emptyState (List.replicate 999 p) = s := ⟨_, rfl⟩
  rw [hs999] at hchar
  have hchar' : ∀ t, typeCodes s999 t =
      (List.range (countType (List.replicate 999 p) t)).map
        (fun i => accountCode t (i + 1)) := by
    intro t
    have h := hchar t
    have h0 : (fun _ : AccountType => 0) t + countType (List.replicate 999 p) t =
        countType (List.replicate 999 p) t := by
      show 0 + _ = _
      omega
    rw [h0] at h
    exact h
  have hasset : typeCodes s999 AccountType.asset =
      (List.range 999).map (fun i => accountCode AccountType.asset (i + 1)) := by
    have := hchar' AccountType.asset
    rwa [countType_replicate, if_pos rfl] at this
  have hform999 : ∀ a ∈ s999.accounts, ∃ n, a.code = accountCode a.type n := by
    intro a ha
    obtain ⟨i, -, h⟩ := code_form_of_typeCodes s999
      (fun t => countType (List.replicate 999 p) t) hchar' a ha
    exact ⟨i + 1, h⟩
  have hgen1000 : generateAccountCode s999.accounts AccountType.asset =
      accountCode AccountType.asset 1000 :=
    generateAccountCode_step s999.accounts AccountType.asset 999 (le_refl 999)
      hform999 hasset
  have hnotmem999 : ∀ a ∈ s999.accounts, a.code ≠ accountCode AccountType.asset 1000 := by
    intro a ha
    obtain ⟨i, hi, hcode⟩ := code_form_of_typeCodes s999
      (fun t => countType (List.replicate 999 p) t) hchar' a ha
    have hi' : i < countType (List.replicate 999 p) a.type := hi
    have hcb : countType (List.replicate 999 p) a.type ≤ 999 := by
      rw [countType_replicate]
      by_cases hq : p.type = a.type
      · rw [if_pos hq]
      · rw [if_neg hq]
        omega
    rw [hcode]
    exact accountCode_ne_1000 a.type AccountType.asset (i + 1) (by omega)
  have hany1000 : s999.accounts.any
      (fun a => a.code == generateAccountCode s999.accounts AccountType.asset) = false := by
    rw [Bool.eq_false_iff]
    intro hcontra
    rw [List.any_eq_true] at hcontra
    obtain ⟨a, ha, hbeq⟩ := hcontra
    simp only [beq_iff_eq] at hbeq
    rw [hgen1000] at hbeq
    exact hnotmem999 a ha hbeq
  obtain ⟨s1000, hs1000⟩ : ∃ s, (createAccountCore s999 p).1 = s := ⟨_, rfl⟩
  have hacc1000 : s1000.accounts = s999.accounts ++
      [⟨s999.nextId, none, "a", AccountType.asset,
        accountCode AccountType.asset 1000, none, true⟩] := by
    rw [← hs1000, createAccountCore_ok s999 p hany1000]
    show s999.accounts ++ [⟨s999.nextId, none, "a", AccountType.asset,
      generateAccountCode s999.accounts AccountType.asset, none, true⟩] = _
    rw [hgen1000]
  have hform1000 : ∀ a ∈ s1000.accounts, ∃ n, a.code = accountCode a.type n := by
    intro a ha
    rw [hacc1000] at ha
    rcases List.mem_append.mp ha with h1 | h2
    · exact hform999 a h1
    · have ha2 : a = ⟨s999.nextId, none, "a", AccountType.asset,
          accountCode AccountType.asset 1000, none, true⟩ := by simpa using h2
      exact ⟨1000, by rw [ha2]⟩
  have htypecodes1000 : typeCodes s1000 AccountType.asset =
      (List.range 999).map (fun i => accountCode AccountType.asset (i + 1)) ++
        [accountCode AccountType.asset 1000] := by
    unfold typeCodes
    rw [hacc1000, List.filter_append, List.map_append]
    rw [show (s999.accounts.filter
        (fun a => decide (a.type = AccountType.asset))).map (·.code) =
      typeCodes s999 AccountType.asset from rfl, hasset]
    simp
  have hgen1001 : generateAccountCode s1000.accounts AccountType.asset =
      accountCode AccountType.asset 1000 := by
    unfold generateAccountCode
    show (match lexMaxStr ((s1000.accounts.filter
        (fun a => leadsWith [pfxChar AccountType.asset, '-'] a.code.data)).map (·.code)) with
      | none => ({ data := pfxChar AccountType.asset :: '-' :: pad3 1 } : String)
      | some top =>
        { data := pfxChar AccountType.asset :: '-' :: pad3 (nextCodeNumber top.data) }) = _
    rw [filter_leadsWith_eq_filter_type s1000.accounts AccountType.asset hform1000]
    rw [show (s1000.accounts.filter
        (fun a => decide (a.type = AccountType.asset))).map (·.code) =
      typeCodes s1000 AccountType.asset from rfl, htypecodes1000]
    have hmem : accountCode AccountType.asset 999 ∈
        (List.range 999).map (fun i => accountCode AccountType.asset (i + 1)) ++
          [accountCode AccountType.asset 1000] := by
      apply List.mem_append_left
      exact List.mem_map_of_mem _ (List.mem_range.mpr (by omega : (998 : Nat) < 999))
    have hmax : ∀ x ∈ (List.range 999).map
          (fun i => accountCode AccountType.asset (i + 1)) ++
          [accountCode AccountType.asset 1000],
        x = accountCode AccountType.asset 999 ∨
          strLtB x (accountCode AccountType.asset 999) = true := by
      intro x hx
      rcases List.mem_append.mp hx with h1 | h2
      · obtain ⟨i, hi, rfl⟩ := List.mem_map.mp h1
        rw [List.mem_range] at hi
        by_cases hik : i + 1 = 999
        · left
          rw [hik]
        · right
          exact strLtB_accountCode _ (i + 1) 999 (by omega) (by omega)
      · right
        have hx2 : x = accountCode AccountType.asset 1000 := by simpa using h2
        rw [hx2]
        decide
    rw [lexMaxStr_eq_max _ _ hmem hmax]
    show (⟨pfxChar AccountType.asset :: '-' ::
      pad3 (nextCodeNumber (accountCode AccountType.asset 999).data)⟩ : String) = _
    rw [nextCodeNumber_accountCode AccountType.asset 999 (le_refl 999)]
    rfl
  have hcodes1000 : accountCode AccountType.asset 1000 ∈ s1000.accounts.map (·.code) := by
    rw [hacc1000, List.map_append]
    apply List.mem_append_right
    simp
  have hany1001 : s1000.accounts.any
      (fun a => a.code == generateAccountCode s1000.accounts AccountType.asset) = true := by
    rw [hgen1001, List.any_eq_true]
    obtain ⟨a, ha, hcode⟩ := List.mem_map.mp hcodes1000
    refine ⟨a, ha, ?_⟩
    simp only [beq_iff_eq]
    exact hcode
  have hrun1000 : runCreates emptyState (List.replicate 1000 p) = s1000 := by
    rw [show (List.replicate 1000 p : List AccountCreate) =
      List.replicate 999 p ++ List.replicate 1 p from List.replicate_add 999 1 p]
    rw [runCreates_append, hs999]
    show (createAccount s999 p).1 = _
    have hred : (createAccount s999 p).1 = (createAccountCore s999 p).1 := by
      unfold createAccount
      rfl
    rw [hred, hs1000]
  have hcc : createAccount s1000 p = createAccountCore s1000 p := by
    unfold createAccount
    rfl
  rw [hrun1000, hcc, createAccountCore_err s1000 p hany1001]
